import Mathlib

/-!
Verification of the becmodel raster classification pipeline.

This file gives a shallow embedding, in Lean, of the core data model and
algorithms of the becmodel package (becmodel/main.py and becmodel/util.py):

* grids as functions on `Fin H × Fin W`, with 4-connectivity flood fill used
  to model the scikit-image morphology operations (remove_small_holes /
  remove_small_objects, whose documented semantics are: fill background
  components of area at most the threshold, drop foreground components of
  area below the minimum size);
* the initial classifier `BECModel.model` (masked assignments over elevation
  rows, aspect transitions and 10-degree steps, in program order);
* the high elevation merge planner `BECModel.high_elevation_merges` and the
  derived type list / dissolve key sequence used by `BECModel.postfilter`;
* the label/code lookups built in `BECModel.load` (Python dicts modelled as
  association lists with in-place update semantics);
* the noise filter, hole-fill and high elevation noise removal stages of
  `BECModel.postfilter`;
* the input validation of `util.validate_data`.

Python floats in the elevation interpolation are modelled as exact rationals
with round-half-to-even, and the numeric raster values as `Nat`/`Int`.
-/

set_option maxRecDepth 4000

namespace Becmodel

/-- A raster cell in an `H × W` grid (row, column). -/
abbrev Cell (H W : Nat) := Fin H × Fin W

/-- 4-connectivity between cells (skimage connectivity=1, the default
`cell_connectivity` in config.py): cells sharing an edge. -/
def touching {H W : Nat} (a b : Cell H W) : Bool :=
  (a.1 == b.1 && (a.2.val + 1 == b.2.val || b.2.val + 1 == a.2.val)) ||
  (a.2 == b.2 && (a.1.val + 1 == b.1.val || b.1.val + 1 == a.1.val))

/-- One step of flood fill: add every cell of the region `p` touching the
current set. -/
def expand {H W : Nat} (p : Cell H W → Bool) (S : Finset (Cell H W)) : Finset (Cell H W) :=
  S ∪ Finset.univ.filter (fun d => p d = true ∧ ∃ c ∈ S, touching c d = true)

/-- The connected component of the region `p` containing `c0`, computed by
flood fill; `H * W` expansion steps always reach the fixed point. This models
the connected-component labelling underlying the scikit-image morphology
calls in `BECModel.postfilter`. -/
def component {H W : Nat} (p : Cell H W → Bool) (c0 : Cell H W) : Finset (Cell H W) :=
  (expand p)^[H * W] ({c0} : Finset (Cell H W))

/-- One adjacency step inside the region `p`. -/
def stepRel {H W : Nat} (p : Cell H W → Bool) (a b : Cell H W) : Prop :=
  p a = true ∧ p b = true ∧ touching a b = true

/-- Connectivity inside the region `p`: the reflexive transitive closure of
single adjacency steps. -/
def Reach {H W : Nat} (p : Cell H W → Bool) (a b : Cell H W) : Prop :=
  Relation.ReflTransGen (stepRel p) a b

/-- skimage.morphology.remove_small_holes: fill every background (complement)
component whose area is at most the threshold. -/
def removeSmallHoles {H W : Nat} (p : Cell H W → Bool) (t : Nat) : Cell H W → Bool :=
  fun c => p c || decide ((component (fun d => !p d) c).card ≤ t)

/-- skimage.morphology.remove_small_objects: drop every foreground component
whose area is below the minimum size. -/
def removeSmallObjects {H W : Nat} (p : Cell H W → Bool) (t : Nat) : Cell H W → Bool :=
  fun c => p c && decide (t ≤ (component p c).card)

/-- A masked assignment: cells matching the mask receive the value. -/
structure Assign (H W : Nat) where
  mask : Cell H W → Bool
  val : Nat

/-- Apply a list of masked assignments in order (later assignments overwrite
earlier ones where masks overlap). -/
def applyAssigns {H W : Nat} (l : List (Assign H W)) (g : Cell H W → Nat) : Cell H W → Nat :=
  l.foldl (fun img a => fun c => if a.mask c then a.val else img c) g

/-- The value of the last assignment in the list whose mask matches the cell,
if any: the "last write wins" semantics of a sequence of masked assignments. -/
def lastHit {H W : Nat} (l : List (Assign H W)) (c : Cell H W) : Option Nat :=
  l.foldl (fun acc a => if a.mask c then some a.val else acc) none

/-- One masked raster write, as in numpy `arr[mask] = v`. -/
def writeMask {H W : Nat} (g : Cell H W → Nat) (m : Cell H W → Bool) (v : Nat) : Cell H W → Nat :=
  fun c => if m c then v else g c

/-- Basic noise filter of `BECModel.postfilter`: for each nonzero becvalue,
extract its mask, fill small holes, remove small objects, and write surviving
cells into a fresh zero grid. -/
def stageD {H W : Nat} (g : Cell H W → Nat) (values : List Nat) (t : Nat) : Cell H W → Nat :=
  values.foldl (fun noise v =>
    let Z := removeSmallObjects (removeSmallHoles (fun c => g c == v) t) t
    fun c => if Z c then v else noise c) (fun _ => 0)

/-- All cells in row-major (lexicographic) order. -/
def allCells (H W : Nat) : List (Cell H W) :=
  (List.finRange H).flatMap (fun i => (List.finRange W).map (fun j => (i, j)))

/-- Squared Euclidean distance between two cells, in cell units. -/
def dist2 {H W : Nat} (a b : Cell H W) : Int :=
  ((a.1.val : Int) - (b.1.val : Int)) ^ 2 + ((a.2.val : Int) - (b.2.val : Int)) ^ 2

/-- The nearest cell with a nonzero value (scipy distance_transform_edt with
return_indices): Euclidean distance, ties broken by row-major order (the
tie-breaking rule of the scipy implementation is not documented; a fixed
deterministic rule is used here). -/
def nearestNonzero {H W : Nat} (noise : Cell H W → Nat) (c : Cell H W) : Option (Cell H W) :=
  ((allCells H W).filter (fun d => noise d != 0)).foldl
    (fun best d =>
      match best with
      | none => some d
      | some b => if dist2 c d < dist2 c b then some d else best) none

/-- Hole fill of `BECModel.postfilter`: cells left at 0 inside the rule
polygon footprint receive the value of the nearest nonzero cell. -/
def stageE {H W : Nat} (noise : Cell H W → Nat) (ruleimg : Cell H W → Int) : Cell H W → Nat :=
  fun c =>
    if noise c = 0 ∧ ruleimg c ≠ 0 then
      match nearestNonzero noise c with
      | some d => noise d
      | none => noise c
    else noise c

/-- The basic noise filter followed by the distance-allocation hole fill
(stages D and E of the postfilter pipeline). -/
def stageDE {H W : Nat} (g : Cell H W → Nat) (values : List Nat) (ruleimg : Cell H W → Int)
    (t : Nat) : Cell H W → Nat :=
  stageE (stageD g values t) ruleimg

/-- A high elevation merge rule, as produced by
`BECModel.high_elevation_merges`: within rule polygon `rule`, small patches
of `becvalue` are reassigned to `becvalue_target`. -/
structure MergeRule where
  rule : Int
  mtype : String
  becvalue : Nat
  becvalue_target : Nat
deriving DecidableEq

/-- One iteration of the high elevation noise removal loop in
`BECModel.postfilter`: aggregate the becvalues of the tier above (`toAgg`),
fill holes smaller than the threshold in that aggregated mask, and write the
filled-hole cells with each merge rule's target, restricted to the rule's
polygon. `tierMerges` is the list of merge rules of the tier being removed. -/
def highElevStep {H W : Nat} (g : Cell H W → Nat) (ruleimg : Cell H W → Int)
    (toAgg : List Nat) (tierMerges : List MergeRule) (t : Nat) : Cell H W → Nat :=
  let X : Cell H W → Bool := fun c => toAgg.contains (g c)
  let Y := removeSmallHoles X t
  let Z : Cell H W → Bool := fun c => !X c && Y c
  tierMerges.foldl
    (fun img m => fun c => if Z c && (ruleimg c == m.rule) then m.becvalue_target else img c) g

/-- Conversion of the high elevation removal threshold from hectares to a
cell count: `int(high_elevation_removal_threshold_ha * 10000 / cell_size**2)`. -/
def highElevationRemovalThresholdCells (ha cellSize : Nat) : Nat :=
  ha * 10000 / (cellSize * cellSize)

/-- A grid is clean for the noise filter when: every nonzero value is a
registry becvalue, there is no unclassified (zero) cell inside the rule
polygon footprint (no holes), and no zone mask has a small hole or a
component below the noise threshold (both morphology operations fix it). -/
def Clean {H W : Nat} (g : Cell H W → Nat) (ruleimg : Cell H W → Int) (values : List Nat)
    (t : Nat) : Prop :=
  (∀ c, g c ≠ 0 → g c ∈ values) ∧
  (∀ c, ruleimg c ≠ 0 → g c ≠ 0) ∧
  (∀ v ∈ values,
    removeSmallHoles (fun c => g c == v) t = (fun c => g c == v) ∧
    removeSmallObjects (fun c => g c == v) t = (fun c => g c == v))

/-- Cleanness is decidable on concrete grids. -/
instance cleanDecidable {H W : Nat} (g : Cell H W → Nat) (ruleimg : Cell H W → Int)
    (values : List Nat) (t : Nat) : Decidable (Clean g ruleimg values t) := by
  unfold Clean
  infer_instance

/-- `S` is a hole of the mask `X`: a connected component of the complement
of `X`. -/
def IsHole {H W : Nat} (X : Cell H W → Bool) (S : Finset (Cell H W)) : Prop :=
  ∃ c0, X c0 = false ∧ S = component (fun d => !X d) c0

/-- One row of the elevation band table (columns of the input CSV after
renaming): a (polygon_number, beclabel) pair with its becvalue and the
low/high elevation bounds for the three aspect temperature positions. -/
structure ElevRow where
  polygon_number : Int
  beclabel : List Char
  becvalue : Nat
  cool_low : Int
  cool_high : Int
  neutral_low : Int
  neutral_high : Int
  warm_low : Int
  warm_high : Int
deriving DecidableEq

/-- The characters of a string literal (labels are modelled as `List Char`). -/
def strChars (s : String) : List Char := s.data

/-- Python str.strip() restricted to spaces, which is all that occurs in
beclabel values. -/
def pystrip (s : List Char) : List Char :=
  ((s.dropWhile (fun ch => ch == ' ')).reverse.dropWhile (fun ch => ch == ' ')).reverse

/-- pandas str.pad(n, side="right"): right-pad with spaces to length n. -/
def pyPadRight (s : List Char) (n : Nat) : List Char :=
  s ++ List.replicate (n - s.length) ' '

/-- Python one-character slice `s[i:i+1]` (empty when the string is short). -/
def charAt (s : List Char) (i : Nat) : List Char := (s.drop i).take 1

/-- config.py `high_elevation_removal_threshold_alpine`. -/
def alpineSet : List (List Char) :=
  [strChars ("AT"), strChars ("BAFA"), strChars ("CMA"), strChars ("IMA")]

/-- config.py `high_elevation_removal_threshold_parkland`. -/
def parklandSet : List (List Char) := [strChars ("p"), strChars ("s")]

/-- config.py `high_elevation_removal_threshold_woodland`. -/
def woodlandSet : List (List Char) := [strChars ("w")]

/-- The beclabels of rows of a rule polygon whose first four (stripped)
characters are an alpine prefix (`beclabel.str[:4].str.strip().isin(...)`). -/
def alpineLabels (rows : List ElevRow) (p : Int) : List (List Char) :=
  (rows.filter (fun r =>
    r.polygon_number == p && alpineSet.contains (pystrip (r.beclabel.take 4)))).map
    (fun r => r.beclabel)

/-- The beclabels of rows of a rule polygon whose seventh character is a
parkland code (`beclabel.str[6:7].str.strip().isin(...)`). -/
def parklandLabels (rows : List ElevRow) (p : Int) : List (List Char) :=
  (rows.filter (fun r =>
    r.polygon_number == p && parklandSet.contains (pystrip (charAt r.beclabel 6)))).map
    (fun r => r.beclabel)

/-- The beclabels of rows of a rule polygon whose seventh character is a
woodland code. -/
def woodlandLabels (rows : List ElevRow) (p : Int) : List (List Char) :=
  (rows.filter (fun r =>
    r.polygon_number == p && woodlandSet.contains (pystrip (charAt r.beclabel 6)))).map
    (fun r => r.beclabel)

/-- The beclabels of rows of a rule polygon matching the first six characters
of the source woodland/parkland label and whose seventh (right-padded)
character is blank: the "high" base labels. -/
def highLabels (rows : List ElevRow) (p : Int) (src6 : List Char) : List (List Char) :=
  (rows.filter (fun r =>
    r.polygon_number == p && (r.beclabel.take 6 == src6) &&
      (charAt (pyPadRight r.beclabel 9) 6 == strChars (" ")))).map
    (fun r => r.beclabel)

/-- Python dict assignment `d[k] = v` on an association list: update the
entry in place if the key is present, else append. -/
def dictInsert {α : Type} {β : Type} [BEq α] : List (α × β) → α → β → List (α × β)
  | [], k, v => [(k, v)]
  | e :: t, k, v => if e.1 == k then (k, v) :: t else e :: dictInsert t k v

/-- Build a Python dict from a list of (key, value) assignments in order. -/
def dictFold {α β : Type} [BEq α] (l : List (α × β)) : List (α × β) :=
  l.foldl (fun acc e => dictInsert acc e.1 e.2) []

/-- Keep the first occurrence of each element (pandas drop_duplicates /
pandas Series.unique order). -/
def dedupFirstAux {α : Type} [BEq α] (seen : List α) : List α → List α
  | [] => []
  | e :: t => if seen.contains e then dedupFirstAux seen t else e :: dedupFirstAux (e :: seen) t

/-- Keep the first occurrence of each element of a list. -/
def dedupFirst {α : Type} [BEq α] (l : List α) : List α := dedupFirstAux [] l

/-- The `becvalue_lookup` dict of `BECModel.load`: distinct
(beclabel, becvalue) pairs of the elevation table, assigned in order. -/
def becvalueLookupList (rows : List ElevRow) : List (List Char × Nat) :=
  dictFold (dedupFirst (rows.map (fun r => (r.beclabel, r.becvalue))))

/-- Lookup of a beclabel in `becvalue_lookup` (`label_to_code`). -/
def labelToCode (rows : List ElevRow) (lbl : List Char) : Option Nat :=
  ((becvalueLookupList rows).find? (fun e => e.1 == lbl)).map (fun e => e.2)

/-- Total version of the becvalue lookup, used where the Python code indexes
the dict with a label that is always present in the table (no KeyError can
occur there). -/
def lookupV (rows : List ElevRow) (lbl : List Char) : Nat :=
  (labelToCode rows lbl).getD 0

/-- The `beclabel_lookup` reverse dict of `BECModel.load`: invert
`becvalue_lookup` entry by entry, then set key 0 to None. -/
def beclabelLookupList (rows : List ElevRow) : List (Nat × Option (List Char)) :=
  dictInsert (dictFold ((becvalueLookupList rows).map (fun e => (e.2, some e.1)))) 0 none

/-- Lookup of a becvalue in `beclabel_lookup` (`code_to_label`); the outer
Option is dict lookup failure (KeyError), the inner one is the stored label
(None for code 0). -/
def codeToLabel (rows : List ElevRow) (v : Nat) : Option (Option (List Char)) :=
  ((beclabelLookupList rows).find? (fun e => e.1 == v)).map (fun e => e.2)

/-- The "high" base labels of a rule polygon, computed (as in the source)
from the first six characters of the woodland label when woodland is present,
else of the parkland label; empty when neither is present (the source leaves
the variable unset and no branch reads it). -/
def highList (rows : List ElevRow) (p : Int) : List (List Char) :=
  if (woodlandLabels rows p).isEmpty then
    if (parklandLabels rows p).isEmpty then []
    else highLabels rows p ((parklandLabels rows p).headI.take 6)
  else highLabels rows p ((woodlandLabels rows p).headI.take 6)

/-- The alpine merge rule block: emitted when an alpine label is present;
its target indexes `parkland[0]`, raising IndexError (`none`) when the
polygon has no parkland label. -/
def alpineBlock (rows : List ElevRow) (p : Int) : Option (List MergeRule) :=
  if (alpineLabels rows p).isEmpty then some [] else
    match (parklandLabels rows p).head? with
    | none => none
    | some pk => some [⟨p, "alpine", lookupV rows (alpineLabels rows p).headI, lookupV rows pk⟩]

/-- The parkland merge rule block: parkland merges to woodland when woodland
is present, else to the high base label (`high[0]`, IndexError when absent). -/
def parklandBlock (rows : List ElevRow) (p : Int) : Option (List MergeRule) :=
  if (parklandLabels rows p).isEmpty then some [] else
    if (woodlandLabels rows p).isEmpty then
      match (highList rows p).head? with
      | none => none
      | some h => some [⟨p, "parkland", lookupV rows (parklandLabels rows p).headI,
          lookupV rows h⟩]
    else some [⟨p, "parkland", lookupV rows (parklandLabels rows p).headI,
        lookupV rows (woodlandLabels rows p).headI⟩]

/-- The woodland merge rule block: woodland merges to the high base label
(`high[0]`, IndexError when absent). -/
def woodlandBlock (rows : List ElevRow) (p : Int) : Option (List MergeRule) :=
  if (woodlandLabels rows p).isEmpty then some [] else
    match (highList rows p).head? with
    | none => none
    | some h => some [⟨p, "woodland", lookupV rows (woodlandLabels rows p).headI,
        lookupV rows h⟩]

/-- `BECModel.high_elevation_merges`, restricted to one rule polygon: the
alpine / parkland / woodland merge rules emitted for that polygon, in that
order. `none` models the unhandled IndexError raised when the Python code
indexes an empty label list. -/
def mergesForPoly (rows : List ElevRow) (p : Int) : Option (List MergeRule) :=
  match alpineBlock rows p, parklandBlock rows p, woodlandBlock rows p with
  | some a, some b, some c => some (a ++ b ++ c)
  | _, _, _ => none

/-- `BECModel.high_elevation_merges`: the merge rules of every rule polygon,
in rule polygon order; `none` models an unhandled IndexError. -/
def highElevationMerges (rows : List ElevRow) (polys : List Int) : Option (List MergeRule) :=
  match polys with
  | [] => some []
  | p :: rest =>
    match mergesForPoly rows p, highElevationMerges rows rest with
    | some a, some b => some (a ++ b)
    | _, _ => none

/-- `σ` is an admissible value of `list(set(...))` over the merge rule types:
a duplicate-free enumeration of the set of types occurring in `L`. Python
set iteration order is unspecified (string hashing is randomized per
process), so `BECModel.high_elevation_types` is modelled as any such `σ`. -/
def IsSetOrder (σ : List String) (L : List MergeRule) : Prop :=
  σ.Nodup ∧ (∀ s ∈ σ, ∃ m ∈ L, m.mtype = s) ∧ (∀ m ∈ L, m.mtype ∈ σ)

/-- Admissibility of a set order is decidable. -/
instance isSetOrderDecidable (σ : List String) (L : List MergeRule) :
    Decidable (IsSetOrder σ L) := by
  unfold IsSetOrder
  infer_instance

/-- The key order of `high_elevation_dissolves`: the high elevation types in
set order, with "high" appended last. -/
def dissolveTypes (σ : List String) : List String := σ ++ [("high" : String)]

/-- The tier sequence iterated by the high elevation noise removal loop of
`BECModel.postfilter`: `dissolve_types[:-1]`. -/
def postfilterIteratedTiers (σ : List String) : List String := (dissolveTypes σ).dropLast

/-- The guard of the high elevation noise removal:
`len(high_elevation_types) >= 1`. -/
def highElevRunsGuard (σ : List String) : Bool := decide (1 ≤ σ.length)

/-- Insertion into a sorted list of integers (ascending). -/
def insertLe (x : Int) : List Int → List Int
  | [] => [x]
  | y :: t => if x ≤ y then x :: y :: t else y :: insertLe x t

/-- Python sorted() on a list of integers. -/
def pysorted : List Int → List Int
  | [] => []
  | x :: t => insertLe x (pysorted t)

/-- The per-(polygon, temperature) elevation band check of
`util.validate_data`: sort the low and high values together, strip the
minimum and maximum, and require an even count in which each value occurs
exactly twice (list length / 2 equals the number of distinct values). -/
def bandCheckOne (lows highs : List Int) : Bool :=
  let vals := pysorted (lows ++ highs)
  let inner := (vals.drop 1).dropLast
  (inner.length % 2 == 0) && (inner.length / 2 == (dedupFirst inner).length)

/-- The elevation band checks for one polygon, over the three aspect
temperature positions. -/
def polyBandsOk (rows : List ElevRow) (p : Int) : Bool :=
  let rs := rows.filter (fun r => r.polygon_number == p)
  bandCheckOne (rs.map (fun r => r.cool_low)) (rs.map (fun r => r.cool_high)) &&
  bandCheckOne (rs.map (fun r => r.neutral_low)) (rs.map (fun r => r.neutral_high)) &&
  bandCheckOne (rs.map (fun r => r.warm_low)) (rs.map (fun r => r.warm_high))

/-- Equality of validation results is decidable. -/
instance exceptDecEq {ε α : Type} [DecidableEq ε] [DecidableEq α] :
    DecidableEq (Except ε α) := fun x y =>
  match x, y with
  | Except.error a, Except.error b => decidable_of_iff (a = b) (by simp)
  | Except.error _, Except.ok _ => isFalse (by simp)
  | Except.ok _, Except.error _ => isFalse (by simp)
  | Except.ok a, Except.ok b => decidable_of_iff (a = b) (by simp)

/-- The polygon_number consistency check of `util.validate_data`: raise iff
the symmetric difference of the two id sets is nonempty. -/
def checkPolygonNumbers (rulepolys : List Int) (elevPolys : List Int) : Except String Unit :=
  if ((rulepolys.toFinset \ elevPolys.toFinset) ∪ (elevPolys.toFinset \ rulepolys.toFinset)).Nonempty
  then Except.error ("input file polygon_number values do not match")
  else Except.ok ()

/-- `util.validate_data`: polygon_number consistency, then the elevation band
structure checks for each polygon of the elevation table. -/
def validateData (rulepolys : List Int) (rows : List ElevRow) : Except String Unit :=
  match checkPolygonNumbers rulepolys (rows.map (fun r => r.polygon_number)) with
  | Except.error e => Except.error e
  | Except.ok _ =>
    if (dedupFirst (rows.map (fun r => r.polygon_number))).all (fun p => polyBandsOk rows p)
    then Except.ok ()
    else Except.error ("Elevations are poorly structured")

/-- Insertion into a list of (low, high) pairs sorted by lower bound. -/
def insertPairLe (x : Int × Int) : List (Int × Int) → List (Int × Int)
  | [] => [x]
  | y :: t => if x.1 ≤ y.1 then x :: y :: t else y :: insertPairLe x t

/-- Sort a list of (low, high) pairs by lower bound (ascending). -/
def sortPairs : List (Int × Int) → List (Int × Int)
  | [] => []
  | x :: t => insertPairLe x (sortPairs t)

/-- The (low, high) elevation pairs of a polygon for one aspect position form
a contiguous, non-overlapping partition of the elevation axis: every band is
nonempty and, after sorting by lower bound, each band starts where the
previous one ends. -/
def IsPartition (pairs : List (Int × Int)) : Prop :=
  pairs ≠ [] ∧ (∀ q ∈ pairs, q.1 < q.2) ∧
    (sortPairs pairs).Chain' (fun a b => a.2 = b.1)

/-- The aspect temperature zone midpoint configuration (degrees azimuth):
cool, neutral east, warm, neutral west. -/
structure AspectCfg where
  cool : Nat
  neutralEast : Nat
  warm : Nat
  neutralWest : Nat

/-- `aspect_zone_midpoints`: [cool, neutral_east, warm, neutral_west, cool]. -/
def aspectZoneMidpoints (cfg : AspectCfg) : List Nat :=
  [cfg.cool, cfg.neutralEast, cfg.warm, cfg.neutralWest, cfg.cool]

/-- `aspect_zone_differences`: successive midpoint differences mod 360. -/
def aspectZoneDifferences (cfg : AspectCfg) : List Nat :=
  (List.range 4).map (fun i =>
    ((((aspectZoneMidpoints cfg).getD (i + 1) 0 : Int) -
      ((aspectZoneMidpoints cfg).getD i 0 : Int)).emod 360).toNat)

/-- `range(0, aspect_zone_differences[i], 10)`: the 10-degree steps through
transition `i`. -/
def stepsOf (cfg : AspectCfg) (i : Nat) : List Nat :=
  (List.range (((aspectZoneDifferences cfg).getD i 0 + 9) / 10)).map (fun k => k * 10)

/-- Python round() on an exact rational: round half to even, as applied by
`int(round(...))` in `BECModel.model`. -/
def pythonRound (q : Rat) : Int :=
  let f : Int := ⌊q⌋
  let r : Rat := q - (f : Rat)
  if r < (1 : Rat) / 2 then f
  else if (1 : Rat) / 2 < r then f + 1
  else if f % 2 = 0 then f else f + 1

/-- `aspect_min = ((midpoint + step) - 5) % 360`. -/
def stepAspectMin (cfg : AspectCfg) (i step : Nat) : Nat :=
  ((((aspectZoneMidpoints cfg).getD i 0 : Int) + (step : Int) - 5).emod 360).toNat

/-- `aspect_max = ((midpoint + step) + 5) % 360`. -/
def stepAspectMax (cfg : AspectCfg) (i step : Nat) : Nat :=
  ((((aspectZoneMidpoints cfg).getD i 0 : Int) + (step : Int) + 5).emod 360).toNat

/-- `elev_min = transition[0][0] + int(round(step * low_elev_step_size))`,
with the float step size modelled as the exact rational
`(end - start) / difference`. (When the difference is zero the Python code
raises ZeroDivisionError before entering the empty step loop; rational
division by zero yields an unused value here.) -/
def stepElevLow (t0 t1 : Int × Int) (d step : Nat) : Int :=
  t0.1 + pythonRound ((step : Rat) * (((t1.1 - t0.1 : Int) : Rat) / (d : Rat)))

/-- `elev_max = transition[0][1] + int(round(step * high_elev_step_size))`. -/
def stepElevHigh (t0 t1 : Int × Int) (d step : Nat) : Int :=
  t0.2 + pythonRound ((step : Rat) * (((t1.2 - t0.2 : Int) : Rat) / (d : Rat)))

/-- Membership of an aspect value in the 10-degree sub-range `[amin, amax)`,
including the wrapped two-pass case: when the range spans 360/0 the assigned
cells are those with `aspect >= amin` together with those with
`aspect < amax`. -/
def aspectInRange (amin amax a : Nat) : Bool :=
  if amax < amin then decide (amin ≤ a) || decide (a < amax)
  else decide (amin ≤ a) && decide (a < amax)

/-- The aspect membership of an equivalent non-wrapping range rotated into
[0, 360): rotate aspects by `-amin` (mod 360) and compare against the rotated
range width. (Stated from the specification for comparison with the split
two-pass masks of the implementation.) -/
def rotatedRangeMember (amin amax a : Nat) : Bool :=
  decide ((a + 360 - amin) % 360 < (amax + 360 - amin) % 360)

/-- One 10-degree step of `BECModel.model`: when the sub-range wraps past
360/0, first assign cells with `aspect >= aspect_min`, then reset
`aspect_min` to 0 and assign cells with `aspect < aspect_max`; otherwise a
single masked assignment. Every mask also requires the rule polygon id and
the elevation range. -/
def stepApply {H W : Nat} (ruleimg : Cell H W → Int) (dem : Cell H W → Int)
    (aspect : Cell H W → Nat) (row : ElevRow) (v : Nat) (amin amax : Nat) (emin emax : Int)
    (g : Cell H W → Nat) : Cell H W → Nat :=
  let g1 := if amax < amin then
      writeMask g (fun c => (ruleimg c == row.polygon_number) && decide (amin ≤ aspect c) &&
        decide (emin ≤ dem c) && decide (dem c < emax)) v
    else g
  let amin2 := if amax < amin then 0 else amin
  writeMask g1 (fun c => (ruleimg c == row.polygon_number) && decide (amin2 ≤ aspect c) &&
    decide (aspect c < amax) && decide (emin ≤ dem c) && decide (dem c < emax)) v

/-- The four aspect transitions of an elevation row, in program order:
(cool, neutral), (neutral, warm), (warm, neutral), (neutral, cool). -/
def transitionsOf (row : ElevRow) : List ((Int × Int) × (Int × Int)) :=
  [((row.cool_low, row.cool_high), (row.neutral_low, row.neutral_high)),
   ((row.neutral_low, row.neutral_high), (row.warm_low, row.warm_high)),
   ((row.warm_low, row.warm_high), (row.neutral_low, row.neutral_high)),
   ((row.neutral_low, row.neutral_high), (row.cool_low, row.cool_high))]

/-- All 10-degree steps of one aspect transition of one elevation row. -/
def transApply {H W : Nat} (cfg : AspectCfg) (ruleimg : Cell H W → Int) (dem : Cell H W → Int)
    (aspect : Cell H W → Nat) (row : ElevRow) (v : Nat) (i : Nat) (tr : (Int × Int) × (Int × Int))
    (g : Cell H W → Nat) : Cell H W → Nat :=
  (stepsOf cfg i).foldl (fun g step =>
    stepApply ruleimg dem aspect row v (stepAspectMin cfg i step) (stepAspectMax cfg i step)
      (stepElevLow tr.1 tr.2 ((aspectZoneDifferences cfg).getD i 0) step)
      (stepElevHigh tr.1 tr.2 ((aspectZoneDifferences cfg).getD i 0) step) g) g

/-- All four aspect transitions of one elevation row, in program order. -/
def rowApply {H W : Nat} (cfg : AspectCfg) (lookup : List Char → Nat) (ruleimg : Cell H W → Int)
    (dem : Cell H W → Int) (aspect : Cell H W → Nat) (g : Cell H W → Nat) (row : ElevRow) :
    Cell H W → Nat :=
  ((transitionsOf row).enum).foldl (fun g p =>
    transApply cfg ruleimg dem aspect row (lookup row.beclabel) p.1 p.2 g) g

/-- `BECModel.model`: generate the initial becvalue raster by iterating the
elevation table rows (in table order), the four aspect transitions, and the
10-degree steps, performing masked assignments into an initially zero grid. -/
def modelGrid {H W : Nat} (cfg : AspectCfg) (lookup : List Char → Nat) (rows : List ElevRow)
    (ruleimg : Cell H W → Int) (dem : Cell H W → Int) (aspect : Cell H W → Nat) :
    Cell H W → Nat :=
  rows.foldl (fun g row => rowApply cfg lookup ruleimg dem aspect g row) (fun _ => 0)

/-- The flat masked assignment corresponding to one (row, transition, step)
triple: the mask is the conjunction of the rule polygon test, aspect
sub-range membership (wrapped ranges as the union of the two passes) and the
interpolated elevation range; the value is the row's becvalue. -/
def stepAssign {H W : Nat} (ruleimg : Cell H W → Int) (dem : Cell H W → Int)
    (aspect : Cell H W → Nat) (row : ElevRow) (v : Nat) (amin amax : Nat) (emin emax : Int) :
    Assign H W :=
  ⟨fun c => (ruleimg c == row.polygon_number) && aspectInRange amin amax (aspect c) &&
    decide (emin ≤ dem c) && decide (dem c < emax), v⟩

/-- The flat, ordered list of masked assignments performed by
`BECModel.model`: elevation rows in table order, then the four transitions
cool-neutral, neutral-warm, warm-neutral, neutral-cool, then the 10-degree
steps in increasing order. -/
def assignList {H W : Nat} (cfg : AspectCfg) (lookup : List Char → Nat) (rows : List ElevRow)
    (ruleimg : Cell H W → Int) (dem : Cell H W → Int) (aspect : Cell H W → Nat) :
    List (Assign H W) :=
  rows.flatMap (fun row =>
    ((transitionsOf row).enum).flatMap (fun p =>
      (stepsOf cfg p.1).map (fun step =>
        stepAssign ruleimg dem aspect row (lookup row.beclabel)
          (stepAspectMin cfg p.1 step) (stepAspectMax cfg p.1 step)
          (stepElevLow p.2.1 p.2.2 ((aspectZoneDifferences cfg).getD p.1 0) step)
          (stepElevHigh p.2.1 p.2.2 ((aspectZoneDifferences cfg).getD p.1 0) step))))

/-- The model pipeline from validated inputs to the initial classification:
`util.load_tables` validates before any grid work, and `BECModel.model` runs
only afterwards. A validation error aborts the run with no grid produced. -/
def runPipeline {H W : Nat} (cfg : AspectCfg) (rulepolys : List Int) (rows : List ElevRow)
    (ruleimg : Cell H W → Int) (dem : Cell H W → Int) (aspect : Cell H W → Nat) :
    Except String (Cell H W → Nat) :=
  match validateData rulepolys rows with
  | Except.error e => Except.error e
  | Except.ok _ => Except.ok (modelGrid cfg (lookupV rows) rows ruleimg dem aspect)

/-! ### Flood fill computes connected components -/

theorem touching_symm_true {H W : Nat} {a b : Cell H W} (h : touching a b = true) :
    touching b a = true := by
  rcases a with ⟨a1, a2⟩
  rcases b with ⟨b1, b2⟩
  simp only [touching, Bool.or_eq_true, Bool.and_eq_true, beq_iff_eq] at h ⊢
  rcases h with ⟨h1, h2 | h2⟩ | ⟨h1, h2 | h2⟩
  · exact Or.inl ⟨h1.symm, Or.inr h2⟩
  · exact Or.inl ⟨h1.symm, Or.inl h2⟩
  · exact Or.inr ⟨h1.symm, Or.inr h2⟩
  · exact Or.inr ⟨h1.symm, Or.inl h2⟩

theorem subset_expand {H W : Nat} (p : Cell H W → Bool) (S : Finset (Cell H W)) :
    S ⊆ expand p S :=
  Finset.subset_union_left

theorem mem_expand {H W : Nat} {p : Cell H W → Bool} {S : Finset (Cell H W)} {d : Cell H W} :
    d ∈ expand p S ↔ d ∈ S ∨ (p d = true ∧ ∃ c ∈ S, touching c d = true) := by
  simp [expand]

theorem subset_iterate_expand {H W : Nat} (p : Cell H W → Bool) (S : Finset (Cell H W))
    (n : Nat) : S ⊆ (expand p)^[n] S := by
  induction n with
  | zero => simp
  | succ n ih =>
    rw [Function.iterate_succ_apply']
    exact ih.trans (subset_expand p _)

theorem iterate_expand_fixed {H W : Nat} {p : Cell H W → Bool} {S : Finset (Cell H W)}
    (h : expand p S = S) (n : Nat) : (expand p)^[n] S = S := by
  induction n with
  | zero => rfl
  | succ n ih => rw [Function.iterate_succ_apply', ih, h]

theorem card_le_iterate_expand {H W : Nat} (p : Cell H W → Bool) (S : Finset (Cell H W))
    (n : Nat) (h : ∀ m < n, expand p ((expand p)^[m] S) ≠ (expand p)^[m] S) :
    S.card + n ≤ (((expand p)^[n] S)).card := by
  induction n with
  | zero => simp
  | succ n ih =>
    have h1 : S.card + n ≤ ((expand p)^[n] S).card :=
      ih (fun m hm => h m (Nat.lt_succ_of_lt hm))
    have hsub : (expand p)^[n] S ⊆ (expand p)^[n + 1] S := by
      rw [Function.iterate_succ_apply']
      exact subset_expand p _
    have hne : (expand p)^[n] S ≠ (expand p)^[n + 1] S := by
      rw [Function.iterate_succ_apply']
      exact fun heq => h n (Nat.lt_succ_self n) heq.symm
    have hlt : ((expand p)^[n] S).card < ((expand p)^[n + 1] S).card :=
      Finset.card_lt_card (hsub.ssubset_of_ne hne)
    omega

theorem exists_iterate_expand_fixed {H W : Nat} (p : Cell H W → Bool) (S : Finset (Cell H W)) :
    ∃ n ≤ H * W, expand p ((expand p)^[n] S) = (expand p)^[n] S := by
  by_contra hcon
  push_neg at hcon
  have h : ∀ m < H * W + 1, expand p ((expand p)^[m] S) ≠ (expand p)^[m] S :=
    fun m hm => hcon m (Nat.lt_succ_iff.mp hm)
  have h1 := card_le_iterate_expand p S (H * W + 1) h
  have h2 : (((expand p)^[H * W + 1] S)).card ≤ Fintype.card (Cell H W) :=
    Finset.card_le_univ _
  have h3 : Fintype.card (Cell H W) = H * W := by
    simp [Cell]
  omega

theorem expand_component {H W : Nat} (p : Cell H W → Bool) (c0 : Cell H W) :
    expand p (component p c0) = component p c0 := by
  obtain ⟨n, hn, hfix⟩ := exists_iterate_expand_fixed p ({c0} : Finset (Cell H W))
  have hrest : (expand p)^[H * W] ({c0} : Finset (Cell H W)) =
      (expand p)^[n] ({c0} : Finset (Cell H W)) := by
    have : H * W = (H * W - n) + n := by omega
    rw [this, Function.iterate_add_apply]
    exact iterate_expand_fixed hfix _
  unfold component
  rw [hrest, hfix]

theorem mem_component_self {H W : Nat} (p : Cell H W → Bool) (c0 : Cell H W) :
    c0 ∈ component p c0 :=
  subset_iterate_expand p _ _ (Finset.mem_singleton_self c0)

theorem reach_p_right {H W : Nat} {p : Cell H W → Bool} {c0 c : Cell H W}
    (hp0 : p c0 = true) (h : Reach p c0 c) : p c = true := by
  induction h with
  | refl => exact hp0
  | tail _ hstep _ => exact hstep.2.1

theorem reach_symm {H W : Nat} {p : Cell H W → Bool} {a b : Cell H W} (h : Reach p a b) :
    Reach p b a := by
  induction h with
  | refl => exact Relation.ReflTransGen.refl
  | tail _ hstep ih =>
    exact Relation.ReflTransGen.head ⟨hstep.2.1, hstep.1, touching_symm_true hstep.2.2⟩ ih

theorem reach_of_mem_iterate {H W : Nat} {p : Cell H W → Bool} {c0 : Cell H W}
    (hp0 : p c0 = true) (n : Nat) :
    ∀ c ∈ (expand p)^[n] ({c0} : Finset (Cell H W)), Reach p c0 c := by
  induction n with
  | zero =>
    intro c hc
    rw [Function.iterate_zero_apply, Finset.mem_singleton] at hc
    rw [hc]
    exact Relation.ReflTransGen.refl
  | succ n ih =>
    intro c hc
    rw [Function.iterate_succ_apply'] at hc
    rcases mem_expand.mp hc with hc | ⟨hpc, b, hb, htouch⟩
    · exact ih c hc
    · have hrb := ih b hb
      exact hrb.tail ⟨reach_p_right hp0 hrb, hpc, htouch⟩

theorem reach_of_mem_component {H W : Nat} {p : Cell H W → Bool} {c0 c : Cell H W}
    (hp0 : p c0 = true) (hc : c ∈ component p c0) : Reach p c0 c :=
  reach_of_mem_iterate hp0 (H * W) c hc

theorem mem_component_of_reach {H W : Nat} {p : Cell H W → Bool} {c0 c : Cell H W}
    (h : Reach p c0 c) : c ∈ component p c0 := by
  induction h with
  | refl => exact mem_component_self p c0
  | tail _ hstep ih =>
    have : _ ∈ expand p (component p c0) :=
      mem_expand.mpr (Or.inr ⟨hstep.2.1, _, ih, hstep.2.2⟩)
    rwa [expand_component] at this

theorem mem_component_iff {H W : Nat} {p : Cell H W → Bool} {c0 c : Cell H W}
    (hp0 : p c0 = true) : c ∈ component p c0 ↔ Reach p c0 c :=
  ⟨reach_of_mem_component hp0, mem_component_of_reach⟩

theorem p_of_mem_component {H W : Nat} {p : Cell H W → Bool} {c0 c : Cell H W}
    (hp0 : p c0 = true) (hc : c ∈ component p c0) : p c = true :=
  reach_p_right hp0 (reach_of_mem_component hp0 hc)

theorem component_eq_of_mem {H W : Nat} {p : Cell H W → Bool} {c0 c : Cell H W}
    (hp0 : p c0 = true) (hc : c ∈ component p c0) : component p c = component p c0 := by
  have hr : Reach p c0 c := reach_of_mem_component hp0 hc
  have hpc : p c = true := reach_p_right hp0 hr
  ext d
  rw [mem_component_iff hp0, mem_component_iff hpc]
  exact ⟨fun h => Relation.ReflTransGen.trans hr h,
    fun h => Relation.ReflTransGen.trans (reach_symm hr) h⟩

/-! ### Masked assignment sequences: last write wins -/

theorem foldl_pick_or {H W : Nat} (c : Cell H W) (l : List (Assign H W)) (i : Option Nat) :
    l.foldl (fun acc a => if a.mask c then some a.val else acc) i = (lastHit l c).or i := by
  induction l generalizing i with
  | nil => simp [lastHit]
  | cons a t ih =>
    show t.foldl _ (if a.mask c then some a.val else i) = _
    rw [ih]
    have hl : lastHit (a :: t) c =
        t.foldl (fun acc x => if x.mask c then some x.val else acc)
          (if a.mask c then some a.val else none) := rfl
    rw [hl, ih]
    cases hlt : lastHit t c with
    | some v => simp [Option.or]
    | none => cases hma : a.mask c <;> simp [Option.or]

theorem applyAssigns_eq {H W : Nat} (l : List (Assign H W)) (g : Cell H W → Nat) (c : Cell H W) :
    applyAssigns l g c = (lastHit l c).getD (g c) := by
  induction l generalizing g with
  | nil => simp [applyAssigns, lastHit]
  | cons a t ih =>
    show applyAssigns t (fun c => if a.mask c then a.val else g c) c = _
    rw [ih]
    have hl : lastHit (a :: t) c =
        t.foldl (fun acc x => if x.mask c then some x.val else acc)
          (if a.mask c then some a.val else none) := rfl
    rw [hl, foldl_pick_or]
    cases hlt : lastHit t c with
    | some v => simp [Option.or]
    | none => cases hma : a.mask c <;> simp [Option.or, hma]

theorem applyAssigns_append {H W : Nat} (l1 l2 : List (Assign H W)) (g : Cell H W → Nat) :
    applyAssigns (l1 ++ l2) g = applyAssigns l2 (applyAssigns l1 g) := by
  unfold applyAssigns
  exact List.foldl_append _ _ _ _

theorem lastHit_eq_some_of {H W : Nat} {l : List (Assign H W)} {c : Cell H W} {v : Nat}
    (hex : ∃ a ∈ l, a.mask c = true) (hall : ∀ a ∈ l, a.mask c = true → a.val = v) :
    lastHit l c = some v := by
  induction l with
  | nil => simp at hex
  | cons a t ih =>
    have hl : lastHit (a :: t) c =
        t.foldl (fun acc x => if x.mask c then some x.val else acc)
          (if a.mask c then some a.val else none) := rfl
    rw [hl, foldl_pick_or]
    by_cases hex2 : ∃ x ∈ t, x.mask c = true
    · rw [ih hex2 (fun x hx => hall x (List.mem_cons_of_mem a hx))]
      simp [Option.or]
    · have ht : lastHit t c = none := by
        unfold lastHit
        rw [foldl_pick_or]
        cases hlt : lastHit t c with
        | some w =>
          exfalso
          -- a some result would exhibit a matching mask in t
          have : ∃ x ∈ t, x.mask c = true := by
            clear hl ih hex hall hex2
            induction t generalizing w with
            | nil => simp [lastHit] at hlt
            | cons b s ihs =>
              have hb : lastHit (b :: s) c =
                  s.foldl (fun acc x => if x.mask c then some x.val else acc)
                    (if b.mask c then some b.val else none) := rfl
              rw [hb, foldl_pick_or] at hlt
              cases hls : lastHit s c with
              | some u =>
                rw [hls] at hlt
                simp [Option.or] at hlt
                obtain ⟨x, hx1, hx2⟩ := ihs u hls
                exact ⟨x, List.mem_cons_of_mem b hx1, hx2⟩
              | none =>
                rw [hls] at hlt
                cases hmb : b.mask c with
                | true => exact ⟨b, List.mem_cons_self b s, hmb⟩
                | false => simp [Option.or, hmb] at hlt
          exact hex2 this
        | none => simp [Option.or]
      rw [ht]
      have hma : a.mask c = true := by
        rcases hex with ⟨x, hx, hmx⟩
        rcases List.mem_cons.mp hx with rfl | hx2
        · exact hmx
        · exact absurd ⟨x, hx2, hmx⟩ hex2
      simp [Option.or, hma, hall a (List.mem_cons_self a t) hma]

theorem lastHit_none_of {H W : Nat} {l : List (Assign H W)} {c : Cell H W}
    (hall : ∀ a ∈ l, a.mask c = false) : lastHit l c = none := by
  induction l with
  | nil => rfl
  | cons a t ih =>
    have hl : lastHit (a :: t) c =
        t.foldl (fun acc x => if x.mask c then some x.val else acc)
          (if a.mask c then some a.val else none) := rfl
    rw [hl, foldl_pick_or, ih (fun x hx => hall x (List.mem_cons_of_mem a hx)),
      hall a (List.mem_cons_self a t)]
    simp [Option.or]

theorem lastHit_mem {H W : Nat} {l : List (Assign H W)} {c : Cell H W} {v : Nat}
    (h : lastHit l c = some v) : ∃ a ∈ l, a.mask c = true ∧ a.val = v := by
  induction l generalizing v with
  | nil => simp [lastHit] at h
  | cons a t ih =>
    have hl : lastHit (a :: t) c =
        t.foldl (fun acc x => if x.mask c then some x.val else acc)
          (if a.mask c then some a.val else none) := rfl
    rw [hl, foldl_pick_or] at h
    cases hlt : lastHit t c with
    | some u =>
      rw [hlt] at h
      simp [Option.or] at h
      obtain ⟨x, hx, hmx, hvx⟩ := ih (h ▸ hlt)
      exact ⟨x, List.mem_cons_of_mem a hx, hmx, hvx⟩
    | none =>
      rw [hlt] at h
      cases hma : a.mask c with
      | true =>
        simp [Option.or, hma] at h
        exact ⟨a, List.mem_cons_self a t, hma, h⟩
      | false => simp [Option.or, hma] at h

/-! ### High elevation noise removal -/

theorem highElevStep_eq_applyAssigns {H W : Nat} (g : Cell H W → Nat) (ruleimg : Cell H W → Int)
    (toAgg : List Nat) (tierMerges : List MergeRule) (t : Nat) :
    highElevStep g ruleimg toAgg tierMerges t =
      applyAssigns (tierMerges.map (fun m =>
        ⟨fun c => (!(toAgg.contains (g c)) &&
            removeSmallHoles (fun d => toAgg.contains (g d)) t c) &&
          (ruleimg c == m.rule), m.becvalue_target⟩)) g := by
  unfold highElevStep applyAssigns
  rw [List.foldl_map]

/-- C6: with the high elevation removal threshold converted from hectares to
cells as `int(ha * 10000 / cell_size**2)`, an alpine patch (a hole of the
aggregated next-tier mask) of exactly threshold - 1 cells is filled and its
cells inside the merge rule's polygon receive the rule's (parkland) target
code, while a patch of exactly threshold + 1 cells is left unchanged. -/
theorem C6_high_elevation_threshold_boundary {H W : Nat} (g : Cell H W → Nat)
    (ruleimg : Cell H W → Int) (toAgg : List Nat) (merges : List MergeRule)
    (ha cellSize : Nat) (m : MergeRule) (S1 S2 : Finset (Cell H W)) (c1 c2 : Cell H W)
    (hm : m ∈ merges) (hmt : m.mtype = "alpine")
    (huniq : ∀ m2 ∈ merges, m2.rule = m.rule → m2 = m)
    (hS1 : IsHole (fun c => toAgg.contains (g c)) S1)
    (hc1 : c1 ∈ S1)
    (hcard1 : S1.card = highElevationRemovalThresholdCells ha cellSize - 1)
    (hr1 : ruleimg c1 = m.rule)
    (hS2 : IsHole (fun c => toAgg.contains (g c)) S2)
    (hc2 : c2 ∈ S2)
    (hcard2 : S2.card = highElevationRemovalThresholdCells ha cellSize + 1) :
    highElevStep g ruleimg toAgg (merges.filter (fun x => x.mtype == ("alpine" : String)))
        (highElevationRemovalThresholdCells ha cellSize) c1 = m.becvalue_target ∧
    highElevStep g ruleimg toAgg (merges.filter (fun x => x.mtype == ("alpine" : String)))
        (highElevationRemovalThresholdCells ha cellSize) c2 = g c2 := by
  set t := highElevationRemovalThresholdCells ha cellSize with ht
  set X : Cell H W → Bool := fun c => toAgg.contains (g c) with hX
  set nX : Cell H W → Bool := fun c => !X c with hnX
  rw [highElevStep_eq_applyAssigns]
  obtain ⟨d1, hd1, hS1e⟩ := hS1
  obtain ⟨d2, hd2, hS2e⟩ := hS2
  have hnd1 : nX d1 = true := by rw [hnX]; simp [hd1]
  have hnd2 : nX d2 = true := by rw [hnX]; simp [hd2]
  rw [hS1e] at hc1 hcard1
  rw [hS2e] at hc2 hcard2
  have hcomp1 : component nX c1 = component nX d1 := component_eq_of_mem hnd1 hc1
  have hcomp2 : component nX c2 = component nX d2 := component_eq_of_mem hnd2 hc2
  have hXc1 : X c1 = false := by
    have := p_of_mem_component hnd1 hc1
    rw [hnX] at this
    simpa using this
  have hXc2 : X c2 = false := by
    have := p_of_mem_component hnd2 hc2
    rw [hnX] at this
    simpa using this
  have hY1 : removeSmallHoles X t c1 = true := by
    unfold removeSmallHoles
    rw [← hnX, hcomp1, hcard1]
    simp [Nat.sub_le]
  have hY2 : removeSmallHoles X t c2 = false := by
    unfold removeSmallHoles
    rw [← hnX, hcomp2, hcard2, hXc2]
    simp
  constructor
  · rw [applyAssigns_eq]
    have hsome : lastHit ((merges.filter (fun x => x.mtype == ("alpine" : String))).map
        (fun m2 => (⟨fun c => (!X c && removeSmallHoles X t c) && (ruleimg c == m2.rule),
          m2.becvalue_target⟩ : Assign H W))) c1 = some m.becvalue_target := by
      apply lastHit_eq_some_of
      · refine ⟨_, List.mem_map_of_mem _ (List.mem_filter.mpr ⟨hm, by simp [hmt]⟩), ?_⟩
        simp [hXc1, hY1, hr1]
      · intro a hamem hamask
        obtain ⟨m2, hm2, rfl⟩ := List.mem_map.mp hamem
        have hm2' : m2 ∈ merges := (List.mem_filter.mp hm2).1
        simp only [Bool.and_eq_true, beq_iff_eq] at hamask
        have : m2.rule = m.rule := by rw [← hamask.2, hr1]
        rw [huniq m2 hm2' this]
    rw [hsome]
    rfl
  · rw [applyAssigns_eq]
    have hnone : lastHit ((merges.filter (fun x => x.mtype == ("alpine" : String))).map
        (fun m2 => (⟨fun c => (!X c && removeSmallHoles X t c) && (ruleimg c == m2.rule),
          m2.becvalue_target⟩ : Assign H W))) c2 = none := by
      apply lastHit_none_of
      intro a hamem
      obtain ⟨m2, _, rfl⟩ := List.mem_map.mp hamem
      simp [hY2]
    rw [hnone]
    rfl

theorem C6_high_elevation_threshold_boundary_witness :
    highElevationRemovalThresholdCells 2 100 = 2 ∧
    @highElevStep 3 4
      (fun c => if c = ((0 : Fin 3), (0 : Fin 4)) then 3 else if c = (2, 1) then 3 else
        if c = (2, 2) then 3 else if c = (2, 3) then 3 else 7)
      (fun _ => 1) [7]
      ([(⟨1, "alpine", 3, 7⟩ : MergeRule)].filter (fun x => x.mtype == ("alpine" : String)))
      (highElevationRemovalThresholdCells 2 100) ((0 : Fin 3), (0 : Fin 4)) = 7 ∧
    @highElevStep 3 4
      (fun c => if c = ((0 : Fin 3), (0 : Fin 4)) then 3 else if c = (2, 1) then 3 else
        if c = (2, 2) then 3 else if c = (2, 3) then 3 else 7)
      (fun _ => 1) [7]
      ([(⟨1, "alpine", 3, 7⟩ : MergeRule)].filter (fun x => x.mtype == ("alpine" : String)))
      (highElevationRemovalThresholdCells 2 100) ((2 : Fin 3), (1 : Fin 4)) = 3 := by
  refine ⟨by decide, ?_⟩
  have h := C6_high_elevation_threshold_boundary
    (fun c => if c = ((0 : Fin 3), (0 : Fin 4)) then 3 else if c = (2, 1) then 3 else
      if c = (2, 2) then 3 else if c = (2, 3) then 3 else 7)
    (fun _ => 1) [7] [(⟨1, "alpine", 3, 7⟩ : MergeRule)] 2 100 ⟨1, "alpine", 3, 7⟩
    (component (fun d => !(([7] : List Nat).contains
      (if d = ((0 : Fin 3), (0 : Fin 4)) then 3 else if d = (2, 1) then 3 else
        if d = (2, 2) then 3 else if d = (2, 3) then 3 else 7))) ((0 : Fin 3), (0 : Fin 4)))
    (component (fun d => !(([7] : List Nat).contains
      (if d = ((0 : Fin 3), (0 : Fin 4)) then 3 else if d = (2, 1) then 3 else
        if d = (2, 2) then 3 else if d = (2, 3) then 3 else 7))) ((2 : Fin 3), (1 : Fin 4)))
    ((0 : Fin 3), (0 : Fin 4)) ((2 : Fin 3), (1 : Fin 4))
    (by decide) rfl (by decide)
    ⟨((0 : Fin 3), (0 : Fin 4)), by decide, rfl⟩ (by decide) (by decide) (by decide)
    ⟨((2 : Fin 3), (1 : Fin 4)), by decide, rfl⟩ (by decide) (by decide)
  exact h

/-! ### Basic noise filter and hole fill -/

theorem stageD_eq_applyAssigns {H W : Nat} (g : Cell H W → Nat) (values : List Nat) (t : Nat) :
    stageD g values t =
      applyAssigns (values.map (fun v =>
        ⟨removeSmallObjects (removeSmallHoles (fun c => g c == v) t) t, v⟩)) (fun _ => 0) := by
  unfold stageD applyAssigns
  rw [List.foldl_map]

theorem stageD_clean {H W : Nat} {g : Cell H W → Nat} {ruleimg : Cell H W → Int}
    {values : List Nat} {t : Nat} (hclean : Clean g ruleimg values t) :
    stageD g values t = g := by
  funext c
  rw [stageD_eq_applyAssigns, applyAssigns_eq]
  have hmask : ∀ v ∈ values,
      removeSmallObjects (removeSmallHoles (fun d => g d == v) t) t = fun d => g d == v := by
    intro v hv
    rw [(hclean.2.2 v hv).1, (hclean.2.2 v hv).2]
  by_cases hin : g c ∈ values
  · have hsome : lastHit (values.map (fun v =>
        (⟨removeSmallObjects (removeSmallHoles (fun d => g d == v) t) t, v⟩ : Assign H W))) c =
        some (g c) := by
      apply lastHit_eq_some_of
      · refine ⟨_, List.mem_map_of_mem _ hin, ?_⟩
        show removeSmallObjects (removeSmallHoles (fun d => g d == g c) t) t c = true
        rw [hmask (g c) hin]
        simp
      · intro a hamem hamask
        obtain ⟨v, hv, rfl⟩ := List.mem_map.mp hamem
        have h2 : (g c == v) = true := by
          have : (fun d => g d == v) c = true := by rw [← hmask v hv]; exact hamask
          exact this
        exact (eq_of_beq h2).symm
    rw [hsome]
    rfl
  · have hz : g c = 0 := by
      by_contra hne
      exact hin (hclean.1 c hne)
    have hnone : lastHit (values.map (fun v =>
        (⟨removeSmallObjects (removeSmallHoles (fun d => g d == v) t) t, v⟩ : Assign H W))) c =
        none := by
      apply lastHit_none_of
      intro a hamem
      obtain ⟨v, hv, rfl⟩ := List.mem_map.mp hamem
      show removeSmallObjects (removeSmallHoles (fun d => g d == v) t) t c = false
      rw [hmask v hv]
      simp only [beq_eq_false_iff_ne, ne_eq]
      intro heq
      exact hin (heq ▸ hv)
    rw [hnone, hz]
    rfl

theorem stageE_id {H W : Nat} {noise : Cell H W → Nat} {ruleimg : Cell H W → Int}
    (h : ∀ c, ¬(noise c = 0 ∧ ruleimg c ≠ 0)) : stageE noise ruleimg = noise := by
  funext c
  unfold stageE
  rw [if_neg (h c)]

/-- C7: on a clean grid (no unclassified cell inside the footprint, every
zone mask already a fixed point of hole filling and small object removal,
values all in the registry), applying the basic noise filter stage followed
by the distance-allocation hole fill twice yields the same grid as applying
them once. -/
theorem C7_noise_stage_idempotent {H W : Nat} (g : Cell H W → Nat) (ruleimg : Cell H W → Int)
    (values : List Nat) (t : Nat) (hclean : Clean g ruleimg values t) :
    stageDE (stageDE g values ruleimg t) values ruleimg t = stageDE g values ruleimg t := by
  have hone : stageDE g values ruleimg t = g := by
    unfold stageDE
    rw [stageD_clean hclean]
    exact stageE_id (fun c => fun hc => hclean.2.1 c hc.2 hc.1)
  rw [hone]
  exact hone

theorem C7_noise_stage_idempotent_witness :
    Clean (H := 2) (W := 2) (fun _ => 5) (fun _ => 1) [5] 1 ∧
    stageDE (H := 2) (W := 2)
        (stageDE (fun _ => 5) [5] (fun _ => 1) 1) [5] (fun _ => 1) 1 =
      stageDE (fun _ => 5) [5] (fun _ => 1) 1 :=
  ⟨by decide, C7_noise_stage_idempotent (fun _ => 5) (fun _ => 1) [5] 1 (by decide)⟩

/-- C10 (amended): after the basic noise filter stage every cell of the
output grid is either 0 or one of the processed registry becvalues; in
particular no synthetic aggregate code survives (an aggregate-coded cell is
replaced by 0, or by a zone code whose filled mask covers it). -/
theorem C10_noise_grid_values {H W : Nat} (g : Cell H W → Nat) (values : List Nat) (t : Nat)
    (c : Cell H W) : stageD g values t c = 0 ∨ stageD g values t c ∈ values := by
  rw [stageD_eq_applyAssigns, applyAssigns_eq]
  cases h : lastHit (values.map (fun v =>
      (⟨removeSmallObjects (removeSmallHoles (fun d => g d == v) t) t, v⟩ : Assign H W))) c with
  | none => left; rfl
  | some v =>
    right
    obtain ⟨a, hamem, _, hval⟩ := lastHit_mem h
    obtain ⟨w, hw, rfl⟩ := List.mem_map.mp hamem
    show (some v).getD 0 ∈ values
    simpa [← hval] using hw

/-- C10 counterexample: a cell carrying a code outside the registry (such as
a synthetic aggregate code) that sits in a sub-threshold hole of a zone mask
is not set to 0 by the noise filter stage: it receives that zone's code. -/
theorem C10_counterexample :
    (fun c : Cell 2 2 => if c = ((0 : Fin 2), (0 : Fin 2)) then 99 else 5)
        ((0 : Fin 2), (0 : Fin 2)) = 99 ∧
    (99 : Nat) ∉ ([5] : List Nat) ∧
    @stageD 2 2 (fun c => if c = ((0 : Fin 2), (0 : Fin 2)) then 99 else 5) [5] 1
        ((0 : Fin 2), (0 : Fin 2)) = 5 ∧
    ¬(@stageD 2 2 (fun c => if c = ((0 : Fin 2), (0 : Fin 2)) then 99 else 5) [5] 1
        ((0 : Fin 2), (0 : Fin 2)) = 0) := by
  refine ⟨rfl, by decide, by decide, by decide⟩

/-! ### Aspect wrap handling -/

theorem stepApply_single {H W : Nat} (ruleimg : Cell H W → Int) (dem : Cell H W → Int)
    (aspect : Cell H W → Nat) (row : ElevRow) (v : Nat) (amin amax : Nat) (emin emax : Int)
    (g : Cell H W → Nat) (c : Cell H W) :
    stepApply ruleimg dem aspect row v amin amax emin emax g c =
      if (stepAssign ruleimg dem aspect row v amin amax emin emax).mask c then v else g c := by
  unfold stepApply stepAssign writeMask aspectInRange
  by_cases hwrap : amax < amin <;>
    by_cases hr : (ruleimg c == row.polygon_number) = true <;>
    by_cases hA : amin ≤ aspect c <;>
    by_cases hB : aspect c < amax <;>
    by_cases hd1 : emin ≤ dem c <;>
    by_cases hd2 : dem c < emax <;>
    simp [hwrap, hr, hA, hB, hd1, hd2]

theorem aspectInRange_rotated {amin amax a : Nat} (h1 : amin < 360) (h2 : amax < 360)
    (hw : amax < amin) (ha : a < 360) :
    (aspectInRange amin amax a = true ↔ rotatedRangeMember amin amax a = true) := by
  unfold aspectInRange rotatedRangeMember
  rw [if_pos hw]
  simp only [Bool.or_eq_true, decide_eq_true_eq]
  omega

/-- C4: for a 10-degree aspect sub-range wrapping past 360/0 (lower bound
above upper bound), the classifier's two separate masked assignments (first
aspect >= min, then aspect < max starting at 0) assign the value to exactly
the cells of the single union mask, and that union matches the equivalent
non-wrapping range rotated into [0, 360). -/
theorem C4_aspect_wrap_correct (amin amax a : Nat) (h1 : amin < 360) (h2 : amax < 360)
    (hw : amax < amin) (ha : a < 360) :
    (∀ (H W : Nat) (ruleimg : Cell H W → Int) (dem : Cell H W → Int)
      (aspect : Cell H W → Nat) (row : ElevRow) (v : Nat) (emin emax : Int)
      (g : Cell H W → Nat) (c : Cell H W),
      stepApply ruleimg dem aspect row v amin amax emin emax g c =
        if (stepAssign ruleimg dem aspect row v amin amax emin emax).mask c then v else g c) ∧
    (aspectInRange amin amax a = true ↔ rotatedRangeMember amin amax a = true) :=
  ⟨fun _ _ ruleimg dem aspect row v emin emax g c =>
    stepApply_single ruleimg dem aspect row v amin amax emin emax g c,
   aspectInRange_rotated h1 h2 hw ha⟩

theorem C4_aspect_wrap_correct_witness :
    ((355 : Nat) < 360 ∧ (5 : Nat) < 355) ∧
    (aspectInRange 355 5 358 = true ↔ rotatedRangeMember 355 5 358 = true) :=
  ⟨⟨by decide, by decide⟩,
   (C4_aspect_wrap_correct 355 5 358 (by decide) (by decide) (by decide) (by decide)).2⟩

/-! ### The initial classifier as an ordered assignment list -/

theorem applyAssigns_flatMap {H W : Nat} {α : Type} (f : α → List (Assign H W)) (l : List α)
    (g : Cell H W → Nat) :
    applyAssigns (l.flatMap f) g = l.foldl (fun g x => applyAssigns (f x) g) g := by
  induction l generalizing g with
  | nil => rfl
  | cons a t ih =>
    rw [List.flatMap_cons, applyAssigns_append, ih]
    rfl

theorem transApply_eq {H W : Nat} (cfg : AspectCfg) (ruleimg : Cell H W → Int)
    (dem : Cell H W → Int) (aspect : Cell H W → Nat) (row : ElevRow) (v : Nat) (i : Nat)
    (tr : (Int × Int) × (Int × Int)) (g : Cell H W → Nat) :
    transApply cfg ruleimg dem aspect row v i tr g =
      applyAssigns ((stepsOf cfg i).map (fun step =>
        stepAssign ruleimg dem aspect row v (stepAspectMin cfg i step) (stepAspectMax cfg i step)
          (stepElevLow tr.1 tr.2 ((aspectZoneDifferences cfg).getD i 0) step)
          (stepElevHigh tr.1 tr.2 ((aspectZoneDifferences cfg).getD i 0) step))) g := by
  unfold transApply applyAssigns
  rw [List.foldl_map]
  apply List.foldl_ext
  intro g step _
  funext c
  exact stepApply_single ruleimg dem aspect row v _ _ _ _ g c

theorem rowApply_eq {H W : Nat} (cfg : AspectCfg) (lookup : List Char → Nat)
    (ruleimg : Cell H W → Int) (dem : Cell H W → Int) (aspect : Cell H W → Nat)
    (g : Cell H W → Nat) (row : ElevRow) :
    rowApply cfg lookup ruleimg dem aspect g row =
      applyAssigns (((transitionsOf row).enum).flatMap (fun p =>
        (stepsOf cfg p.1).map (fun step =>
          stepAssign ruleimg dem aspect row (lookup row.beclabel)
            (stepAspectMin cfg p.1 step) (stepAspectMax cfg p.1 step)
            (stepElevLow p.2.1 p.2.2 ((aspectZoneDifferences cfg).getD p.1 0) step)
            (stepElevHigh p.2.1 p.2.2 ((aspectZoneDifferences cfg).getD p.1 0) step)))) g := by
  unfold rowApply
  rw [applyAssigns_flatMap]
  apply List.foldl_ext
  intro g p _
  exact transApply_eq cfg ruleimg dem aspect row (lookup row.beclabel) p.1 p.2 g

theorem modelGrid_eq_applyAssigns {H W : Nat} (cfg : AspectCfg) (lookup : List Char → Nat)
    (rows : List ElevRow) (ruleimg : Cell H W → Int) (dem : Cell H W → Int)
    (aspect : Cell H W → Nat) :
    modelGrid cfg lookup rows ruleimg dem aspect =
      applyAssigns (assignList cfg lookup rows ruleimg dem aspect) (fun _ => 0) := by
  unfold modelGrid assignList
  rw [applyAssigns_flatMap]
  apply List.foldl_ext
  intro g row _
  exact rowApply_eq cfg lookup ruleimg dem aspect g row

/-- C2: the initial classifier equals the last-write-wins semantics of the
flat ordered assignment list: each (row, transition, step) mask assigns the
row's zone code to cells matching its rule polygon, aspect sub-range and
elevation range, and the final value of a cell is that of the last matching
assignment in the order rows (table order), transitions cool-neutral,
neutral-warm, warm-neutral, neutral-cool, steps increasing; cells matched by
no assignment stay 0. -/
theorem C2_classifier_assignment_order {H W : Nat} (cfg : AspectCfg)
    (lookup : List Char → Nat) (rows : List ElevRow) (ruleimg : Cell H W → Int)
    (dem : Cell H W → Int) (aspect : Cell H W → Nat) (c : Cell H W) :
    modelGrid cfg lookup rows ruleimg dem aspect c =
      (lastHit (assignList cfg lookup rows ruleimg dem aspect) c).getD 0 := by
  rw [modelGrid_eq_applyAssigns, applyAssigns_eq]

/-! ### Association-list dictionaries: label and code lookups -/

theorem find?_cons_true {α : Type} (p : α → Bool) (x : α) (l : List α) (h : p x = true) :
    List.find? p (x :: l) = some x := by
  simp [List.find?_cons, h]

theorem find?_cons_false {α : Type} (p : α → Bool) (x : α) (l : List α) (h : p x = false) :
    List.find? p (x :: l) = List.find? p l := by
  simp [List.find?_cons, h]

theorem find?_dictInsert_self {α β : Type} [BEq α] [LawfulBEq α] (l : List (α × β)) (k : α)
    (v : β) : (dictInsert l k v).find? (fun e => e.1 == k) = some (k, v) := by
  induction l with
  | nil => simp [dictInsert, List.find?]
  | cons e t ih =>
    by_cases he : (e.1 == k) = true
    · simp [dictInsert, he, List.find?]
    · simp only [dictInsert, he, Bool.false_eq_true, if_false]
      rw [find?_cons_false _ _ _ (by simpa using he)]
      exact ih

theorem find?_dictInsert_ne {α β : Type} [BEq α] [LawfulBEq α] (l : List (α × β)) (k k' : α)
    (v : β) (hne : k' ≠ k) :
    (dictInsert l k v).find? (fun e => e.1 == k') = l.find? (fun e => e.1 == k') := by
  induction l with
  | nil =>
    have hkk : (k == k') = false := by
      simp only [beq_eq_false_iff_ne, ne_eq]
      exact fun h => hne h.symm
    simp [dictInsert, List.find?, hkk]
  | cons e t ih =>
    by_cases he : (e.1 == k) = true
    · have hek : e.1 = k := eq_of_beq he
      have h1 : (k == k') = false := by
        simp only [beq_eq_false_iff_ne, ne_eq]
        exact fun h => hne h.symm
      have h2 : (e.1 == k') = false := by rw [hek]; exact h1
      simp only [dictInsert, he, if_true]
      rw [find?_cons_false (fun x => x.1 == k') (k, v) t h1,
        find?_cons_false (fun x => x.1 == k') e t h2]
    · simp only [dictInsert, he, Bool.false_eq_true, if_false]
      by_cases he' : (e.1 == k') = true
      · rw [find?_cons_true (fun x => x.1 == k') e (dictInsert t k v) he',
          find?_cons_true (fun x => x.1 == k') e t he']
      · rw [find?_cons_false (fun x => x.1 == k') e (dictInsert t k v) (by simpa using he'),
          find?_cons_false (fun x => x.1 == k') e t (by simpa using he')]
        exact ih

theorem mem_dictInsert {α β : Type} [BEq α] (l : List (α × β)) (k : α) (v : β) :
    ∀ x ∈ dictInsert l k v, x ∈ l ∨ x = (k, v) := by
  induction l with
  | nil => simp [dictInsert]
  | cons e t ih =>
    intro x hx
    by_cases he : (e.1 == k) = true
    · simp only [dictInsert, he, if_true] at hx
      rcases List.mem_cons.mp hx with rfl | hx2
      · exact Or.inr rfl
      · exact Or.inl (List.mem_cons_of_mem e hx2)
    · simp only [dictInsert, he, Bool.false_eq_true, if_false] at hx
      rcases List.mem_cons.mp hx with rfl | hx2
      · exact Or.inl (List.mem_cons_self x t)
      · rcases ih x hx2 with h | h
        · exact Or.inl (List.mem_cons_of_mem e h)
        · exact Or.inr h

theorem mem_foldl_dictInsert {α β : Type} [BEq α] (l : List (α × β)) :
    ∀ (acc : List (α × β)) x, x ∈ l.foldl (fun a e => dictInsert a e.1 e.2) acc →
      x ∈ acc ∨ x ∈ l := by
  induction l with
  | nil => intro acc x hx; exact Or.inl hx
  | cons e t ih =>
    intro acc x hx
    rcases ih (dictInsert acc e.1 e.2) x hx with h | h
    · rcases mem_dictInsert acc e.1 e.2 x h with h2 | h2
      · exact Or.inl h2
      · exact Or.inr (by rw [h2]; exact List.mem_cons_self e t)
    · exact Or.inr (List.mem_cons_of_mem e h)

theorem mem_dictFold {α β : Type} [BEq α] (l : List (α × β)) :
    ∀ x ∈ dictFold l, x ∈ l :=
  fun x hx => (mem_foldl_dictInsert l [] x hx).resolve_left (by simp)

theorem find?_foldl_dictInsert_stable {α β : Type} [BEq α] [LawfulBEq α] (t : List (α × β)) :
    ∀ (acc : List (α × β)) (k : α),
      (∃ w, acc.find? (fun e => e.1 == k) = some (k, w)) →
      ∃ w, (t.foldl (fun a e => dictInsert a e.1 e.2) acc).find? (fun e => e.1 == k) =
        some (k, w) := by
  induction t with
  | nil => intro acc k h; exact h
  | cons e t ih =>
    intro acc k h
    refine ih (dictInsert acc e.1 e.2) k ?_
    by_cases hek : e.1 = k
    · subst hek
      exact ⟨e.2, find?_dictInsert_self acc e.1 e.2⟩
    · obtain ⟨w, hw⟩ := h
      refine ⟨w, ?_⟩
      rw [find?_dictInsert_ne acc e.1 k e.2 (fun h2 => hek h2.symm)]
      exact hw

theorem find?_foldl_dictInsert_of_key {α β : Type} [BEq α] [LawfulBEq α] (l : List (α × β)) :
    ∀ (acc : List (α × β)) (k : α), k ∈ l.map Prod.fst →
      ∃ w, (l.foldl (fun a e => dictInsert a e.1 e.2) acc).find? (fun e => e.1 == k) =
        some (k, w) := by
  induction l with
  | nil => intro acc k h; simp at h
  | cons e t ih =>
    intro acc k h
    rw [List.map_cons] at h
    rcases List.mem_cons.mp h with hk | hk
    · subst hk
      exact find?_foldl_dictInsert_stable t (dictInsert acc e.1 e.2) e.1
        ⟨e.2, find?_dictInsert_self acc e.1 e.2⟩
    · exact ih (dictInsert acc e.1 e.2) k hk

theorem find?_dictFold_of_key {α β : Type} [BEq α] [LawfulBEq α] (l : List (α × β)) (k : α)
    (h : k ∈ l.map Prod.fst) :
    ∃ w, (dictFold l).find? (fun e => e.1 == k) = some (k, w) ∧ (k, w) ∈ l := by
  obtain ⟨w, hw⟩ := find?_foldl_dictInsert_of_key l [] k h
  exact ⟨w, hw, mem_dictFold l _ (List.mem_of_find?_eq_some hw)⟩

theorem mem_dedupFirstAux {α : Type} [BEq α] [LawfulBEq α] (l : List α) :
    ∀ (seen : List α) (x : α), x ∈ dedupFirstAux seen l ↔ x ∈ l ∧ x ∉ seen := by
  induction l with
  | nil => simp [dedupFirstAux]
  | cons e t ih =>
    intro seen x
    by_cases he : seen.contains e
    · have hem : e ∈ seen := by
        have : seen.elem e = true := he
        exact (List.elem_iff).mp this
      simp only [dedupFirstAux, he, if_true, ih]
      constructor
      · rintro ⟨h1, h2⟩
        exact ⟨List.mem_cons_of_mem e h1, h2⟩
      · rintro ⟨h1, h2⟩
        rcases List.mem_cons.mp h1 with rfl | h1
        · exact absurd hem h2
        · exact ⟨h1, h2⟩
    · simp only [dedupFirstAux, he, Bool.false_eq_true, if_false]
      constructor
      · intro hx
        rcases List.mem_cons.mp hx with rfl | hx2
        · refine ⟨List.mem_cons_self x t, fun hs => ?_⟩
          exact he ((List.elem_iff).mpr hs)
        · have := (ih (e :: seen) x).mp hx2
          refine ⟨List.mem_cons_of_mem e this.1, fun hs => this.2 (List.mem_cons_of_mem e hs)⟩
      · rintro ⟨h1, h2⟩
        rcases List.mem_cons.mp h1 with rfl | h1
        · exact List.mem_cons_self x _
        · by_cases hxe : x = e
          · rw [hxe]; exact List.mem_cons_self e _
          · exact List.mem_cons_of_mem e ((ih (e :: seen) x).mpr
              ⟨h1, fun hs => by
                rcases List.mem_cons.mp hs with h | h
                · exact hxe h
                · exact h2 h⟩)

theorem mem_dedupFirst {α : Type} [BEq α] [LawfulBEq α] (l : List α) (x : α) :
    x ∈ dedupFirst l ↔ x ∈ l := by
  rw [dedupFirst, mem_dedupFirstAux]
  simp

/-- C5: for every label present in the elevation table, label-to-code
followed by code-to-label recovers the label (given the registry invariant
that becvalues are injective over rows and nonzero), and the reverse lookup
always maps code 0 to the no-label sentinel. -/
theorem C5_label_code_roundtrip (rows : List ElevRow) (lbl : List Char)
    (hinj : ∀ r ∈ rows, ∀ r2 ∈ rows, r.becvalue = r2.becvalue → r.beclabel = r2.beclabel)
    (hnz : ∀ r ∈ rows, r.becvalue ≠ 0)
    (hl : lbl ∈ rows.map (fun r => r.beclabel)) :
    (∃ v, labelToCode rows lbl = some v ∧ codeToLabel rows v = some (some lbl)) ∧
    codeToLabel rows 0 = some none := by
  constructor
  · obtain ⟨r, hr, hrl⟩ := List.mem_map.mp hl
    have hpair : (lbl, r.becvalue) ∈ rows.map (fun r2 => (r2.beclabel, r2.becvalue)) :=
      List.mem_map.mpr ⟨r, hr, by rw [hrl]⟩
    have hded : (lbl, r.becvalue) ∈
        dedupFirst (rows.map (fun r2 => (r2.beclabel, r2.becvalue))) :=
      (mem_dedupFirst _ _).mpr hpair
    have hkey : lbl ∈
        (dedupFirst (rows.map (fun r2 => (r2.beclabel, r2.becvalue)))).map Prod.fst :=
      List.mem_map.mpr ⟨_, hded, rfl⟩
    obtain ⟨w, hfind, hmem⟩ :=
      find?_dictFold_of_key (dedupFirst (rows.map (fun r2 => (r2.beclabel, r2.becvalue)))) lbl hkey
    have hltc : labelToCode rows lbl = some w := by
      unfold labelToCode becvalueLookupList
      rw [hfind]
      rfl
    have hmem2 : (lbl, w) ∈ rows.map (fun r2 => (r2.beclabel, r2.becvalue)) :=
      (mem_dedupFirst _ _).mp hmem
    obtain ⟨rw2, hrw2, hrw2eq⟩ := List.mem_map.mp hmem2
    have hrw2l : rw2.beclabel = lbl := congrArg Prod.fst hrw2eq
    have hrw2v : rw2.becvalue = w := congrArg Prod.snd hrw2eq
    have hw0 : w ≠ 0 := hrw2v ▸ hnz rw2 hrw2
    have hinbvl : (lbl, w) ∈ becvalueLookupList rows := by
      unfold becvalueLookupList
      exact List.mem_of_find?_eq_some hfind
    have hkey2 : w ∈ ((becvalueLookupList rows).map (fun e => (e.2, some e.1))).map Prod.fst :=
      List.mem_map.mpr ⟨(w, some lbl), List.mem_map.mpr ⟨(lbl, w), hinbvl, rfl⟩, rfl⟩
    obtain ⟨z, hfind2, hmem3⟩ :=
      find?_dictFold_of_key ((becvalueLookupList rows).map (fun e => (e.2, some e.1))) w hkey2
    obtain ⟨e2, he2, he2eq⟩ := List.mem_map.mp hmem3
    have he2v : e2.2 = w := congrArg Prod.fst he2eq
    have he2z : some e2.1 = z := congrArg Prod.snd he2eq
    have he2pairs : (e2.1, e2.2) ∈ rows.map (fun r2 => (r2.beclabel, r2.becvalue)) := by
      have h1 : (e2.1, e2.2) ∈ dedupFirst (rows.map (fun r2 => (r2.beclabel, r2.becvalue))) := by
        have := mem_dictFold _ _ he2
        exact this
      exact (mem_dedupFirst _ _).mp h1
    obtain ⟨r3, hr3, hr3eq⟩ := List.mem_map.mp he2pairs
    have hr3l : r3.beclabel = e2.1 := congrArg Prod.fst hr3eq
    have hr3v : r3.becvalue = e2.2 := congrArg Prod.snd hr3eq
    have hlbleq : e2.1 = lbl := by
      have hveq : r3.becvalue = rw2.becvalue := by rw [hr3v, he2v, hrw2v]
      have := hinj r3 hr3 rw2 hrw2 hveq
      rw [← hr3l, this, hrw2l]
    refine ⟨w, hltc, ?_⟩
    unfold codeToLabel beclabelLookupList
    rw [find?_dictInsert_ne _ 0 w none hw0]
    unfold becvalueLookupList at hfind2 ⊢
    rw [hfind2, ← he2z, hlbleq]
    rfl
  · unfold codeToLabel beclabelLookupList
    rw [find?_dictInsert_self]
    rfl

theorem C5_label_code_roundtrip_witness :
    (strChars ("AT      1") ∈
      ([(⟨1, strChars ("AT      1"), 3, 0, 100, 0, 100, 0, 100⟩ : ElevRow),
        (⟨1, strChars ("ESSFmvp 1"), 7, 100, 500, 100, 500, 100, 500⟩ : ElevRow)].map
        (fun r => r.beclabel))) ∧
    (∃ v, labelToCode
        [(⟨1, strChars ("AT      1"), 3, 0, 100, 0, 100, 0, 100⟩ : ElevRow),
         (⟨1, strChars ("ESSFmvp 1"), 7, 100, 500, 100, 500, 100, 500⟩ : ElevRow)]
        (strChars ("AT      1")) = some v ∧
      codeToLabel
        [(⟨1, strChars ("AT      1"), 3, 0, 100, 0, 100, 0, 100⟩ : ElevRow),
         (⟨1, strChars ("ESSFmvp 1"), 7, 100, 500, 100, 500, 100, 500⟩ : ElevRow)]
        v = some (some (strChars ("AT      1")))) ∧
    codeToLabel
        [(⟨1, strChars ("AT      1"), 3, 0, 100, 0, 100, 0, 100⟩ : ElevRow),
         (⟨1, strChars ("ESSFmvp 1"), 7, 100, 500, 100, 500, 100, 500⟩ : ElevRow)]
        0 = some none := by
  have h := C5_label_code_roundtrip
    [(⟨1, strChars ("AT      1"), 3, 0, 100, 0, 100, 0, 100⟩ : ElevRow),
     (⟨1, strChars ("ESSFmvp 1"), 7, 100, 500, 100, 500, 100, 500⟩ : ElevRow)]
    (strChars ("AT      1")) (by decide) (by decide) (by decide)
  exact ⟨by decide, h.1, h.2⟩

/-! ### Input validation -/

theorem symmdiff_empty_iff {α : Type} [DecidableEq α] (A B : Finset α) :
    ((A \ B) ∪ (B \ A)) = ∅ ↔ A = B := by
  constructor
  · intro h
    rw [Finset.union_eq_empty] at h
    exact Finset.Subset.antisymm (Finset.sdiff_eq_empty_iff_subset.mp h.1)
      (Finset.sdiff_eq_empty_iff_subset.mp h.2)
  · intro h
    rw [h]
    simp

/-- C8: the polygon_number consistency check raises a data error exactly when
the set of ids in the elevation table differs from the set of ids of the rule
polygons (nonempty symmetric difference), and a raised error aborts the
pipeline during input loading, before the classifier produces any grid. -/
theorem C8_polygon_number_validation {H W : Nat} (cfg : AspectCfg) (rulepolys : List Int)
    (rows : List ElevRow) (ruleimg : Cell H W → Int) (dem : Cell H W → Int)
    (aspect : Cell H W → Nat) :
    ((∃ e, checkPolygonNumbers rulepolys (rows.map (fun r => r.polygon_number)) =
        Except.error e) ↔
      rulepolys.toFinset ≠ (rows.map (fun r => r.polygon_number)).toFinset) ∧
    (∀ e, checkPolygonNumbers rulepolys (rows.map (fun r => r.polygon_number)) =
        Except.error e →
      runPipeline cfg rulepolys rows ruleimg dem aspect = Except.error e) := by
  constructor
  · unfold checkPolygonNumbers
    by_cases hne : ((rulepolys.toFinset \ (rows.map (fun r => r.polygon_number)).toFinset) ∪
        ((rows.map (fun r => r.polygon_number)).toFinset \ rulepolys.toFinset)).Nonempty
    · rw [if_pos hne]
      constructor
      · intro _ heq
        rw [← symmdiff_empty_iff rulepolys.toFinset
          ((rows.map (fun r => r.polygon_number)).toFinset)] at heq
        rw [heq] at hne
        exact Finset.not_nonempty_empty hne
      · intro _
        exact ⟨"input file polygon_number values do not match", rfl⟩
    · rw [if_neg hne]
      constructor
      · rintro ⟨e, he⟩
        exact absurd he (by simp)
      · intro hdiff
        exfalso
        rw [Finset.not_nonempty_iff_eq_empty, symmdiff_empty_iff] at hne
        exact hdiff hne
  · intro e he
    unfold runPipeline validateData
    rw [he]

theorem C8_polygon_number_validation_witness :
    checkPolygonNumbers [(1 : Int)]
        (([(⟨2, strChars ("AAA"), 1, 0, 100, 0, 100, 0, 100⟩ : ElevRow)]).map
          (fun r => r.polygon_number)) =
      Except.error ("input file polygon_number values do not match") ∧
    runPipeline (H := 1) (W := 1) (⟨0, 90, 200, 290⟩ : AspectCfg) [(1 : Int)]
        [(⟨2, strChars ("AAA"), 1, 0, 100, 0, 100, 0, 100⟩ : ElevRow)]
        (fun _ => 1) (fun _ => 50) (fun _ => 90) =
      Except.error ("input file polygon_number values do not match") := by
  have hchk : checkPolygonNumbers [(1 : Int)]
      (([(⟨2, strChars ("AAA"), 1, 0, 100, 0, 100, 0, 100⟩ : ElevRow)]).map
        (fun r => r.polygon_number)) =
      Except.error ("input file polygon_number values do not match") := by decide
  exact ⟨hchk,
    (C8_polygon_number_validation (⟨0, 90, 200, 290⟩ : AspectCfg) [(1 : Int)]
      [(⟨2, strChars ("AAA"), 1, 0, 100, 0, 100, 0, 100⟩ : ElevRow)]
      (fun _ => 1) (fun _ => 50) (fun _ => 90)).2 _ hchk⟩

/-- C9 counterexample: an elevation table whose bands for a polygon are not a
partition (two fully duplicated bands, an overlap) passes `validate_data`
without an error: the sorted boundary heuristic only checks that interior
boundary values pair up evenly, which duplicated rows satisfy. -/
theorem C9_counterexample :
    ¬ IsPartition [((0 : Int), (100 : Int)), (0, 100), (100, 200), (100, 200)] ∧
    validateData [(1 : Int)]
      [(⟨1, strChars ("AAA"), 1, 0, 100, 0, 100, 0, 100⟩ : ElevRow),
       (⟨1, strChars ("BBB"), 2, 0, 100, 0, 100, 0, 100⟩ : ElevRow),
       (⟨1, strChars ("CCC"), 3, 100, 200, 100, 200, 100, 200⟩ : ElevRow),
       (⟨1, strChars ("DDD"), 4, 100, 200, 100, 200, 100, 200⟩ : ElevRow)] =
      Except.ok () := by
  constructor
  · intro h
    have h3 := h.2.2
    have : sortPairs [((0 : Int), (100 : Int)), (0, 100), (100, 200), (100, 200)] =
        [(0, 100), (0, 100), (100, 200), (100, 200)] := by decide
    rw [this] at h3
    have := List.chain'_cons.mp h3
    exact absurd this.1 (by decide)
  · decide

/-- C9 (amended): for a table whose polygon ids match the rule polygons,
input validation raises a data error (aborting the pipeline before the
classifier runs) exactly when, for some polygon of the elevation table, the
implemented boundary heuristic fails: the sorted interior boundary list (all
low and high values with one minimum and one maximum stripped, per aspect
position) has odd length, or half its length differs from its number of
distinct values. This catches gaps and simple overlaps, but not every
non-partition: fully duplicated bands pass (see the counterexample), as do
boundary multisets whose multiplicities merely average two. -/
theorem C9_band_validation {H W : Nat} (cfg : AspectCfg) (rulepolys : List Int)
    (rows : List ElevRow) (ruleimg : Cell H W → Int) (dem : Cell H W → Int)
    (aspect : Cell H W → Nat)
    (hpoly : checkPolygonNumbers rulepolys (rows.map (fun r => r.polygon_number)) =
      Except.ok ()) :
    (∃ p ∈ dedupFirst (rows.map (fun r => r.polygon_number)), polyBandsOk rows p = false) ↔
      runPipeline cfg rulepolys rows ruleimg dem aspect =
        Except.error ("Elevations are poorly structured") := by
  unfold runPipeline validateData
  rw [hpoly]
  cases hall : (dedupFirst (rows.map (fun r => r.polygon_number))).all
      (fun q => polyBandsOk rows q) with
  | true =>
    constructor
    · rintro ⟨p, hp, hbad⟩
      rw [List.all_eq_true] at hall
      have := hall p hp
      rw [hbad] at this
      exact absurd this (by simp)
    · intro h
      exact absurd h (by simp)
  | false =>
    constructor
    · intro _
      rfl
    · intro _
      by_contra hno
      push_neg at hno
      have hall2 : (dedupFirst (rows.map (fun r => r.polygon_number))).all
          (fun q => polyBandsOk rows q) = true := by
        rw [List.all_eq_true]
        intro p hp
        cases hb : polyBandsOk rows p with
        | true => rfl
        | false => exact absurd hb (hno p hp)
      rw [hall2] at hall
      exact absurd hall (by simp)

theorem C9_band_validation_witness :
    checkPolygonNumbers [(1 : Int)]
        (([(⟨1, strChars ("AAA"), 1, 0, 100, 0, 100, 0, 100⟩ : ElevRow),
           (⟨1, strChars ("BBB"), 2, 200, 300, 200, 300, 200, 300⟩ : ElevRow)]).map
          (fun r => r.polygon_number)) = Except.ok () ∧
    polyBandsOk
        [(⟨1, strChars ("AAA"), 1, 0, 100, 0, 100, 0, 100⟩ : ElevRow),
         (⟨1, strChars ("BBB"), 2, 200, 300, 200, 300, 200, 300⟩ : ElevRow)] 1 = false ∧
    runPipeline (H := 1) (W := 1) (⟨0, 90, 200, 290⟩ : AspectCfg) [(1 : Int)]
        [(⟨1, strChars ("AAA"), 1, 0, 100, 0, 100, 0, 100⟩ : ElevRow),
         (⟨1, strChars ("BBB"), 2, 200, 300, 200, 300, 200, 300⟩ : ElevRow)]
        (fun _ => 1) (fun _ => 50) (fun _ => 90) =
      Except.error ("Elevations are poorly structured") :=
  ⟨by decide, by decide,
   (C9_band_validation (⟨0, 90, 200, 290⟩ : AspectCfg) [(1 : Int)]
     [(⟨1, strChars ("AAA"), 1, 0, 100, 0, 100, 0, 100⟩ : ElevRow),
      (⟨1, strChars ("BBB"), 2, 200, 300, 200, 300, 200, 300⟩ : ElevRow)]
     (fun _ => 1) (fun _ => 50) (fun _ => 90) (by decide)).mp
     ⟨1, by decide, by decide⟩⟩

/-! ### High elevation merge planner -/

theorem alpineBlock_rules (rows : List ElevRow) (p : Int) (a : List MergeRule)
    (h : alpineBlock rows p = some a) : ∀ m ∈ a, m.rule = p := by
  unfold alpineBlock at h
  split at h
  · injection h with h
    subst h
    intro m hm
    cases hm
  · split at h
    · exact absurd h (by simp)
    · injection h with h
      subst h
      intro m hm
      rcases List.mem_cons.mp hm with rfl | hm2
      · rfl
      · cases hm2

theorem parklandBlock_rules (rows : List ElevRow) (p : Int) (a : List MergeRule)
    (h : parklandBlock rows p = some a) : ∀ m ∈ a, m.rule = p := by
  unfold parklandBlock at h
  split at h
  · injection h with h
    subst h
    intro m hm
    cases hm
  · split at h
    · split at h
      · exact absurd h (by simp)
      · injection h with h
        subst h
        intro m hm
        rcases List.mem_cons.mp hm with rfl | hm2
        · rfl
        · cases hm2
    · injection h with h
      subst h
      intro m hm
      rcases List.mem_cons.mp hm with rfl | hm2
      · rfl
      · cases hm2

theorem woodlandBlock_rules (rows : List ElevRow) (p : Int) (a : List MergeRule)
    (h : woodlandBlock rows p = some a) : ∀ m ∈ a, m.rule = p := by
  unfold woodlandBlock at h
  split at h
  · injection h with h
    subst h
    intro m hm
    cases hm
  · split at h
    · exact absurd h (by simp)
    · injection h with h
      subst h
      intro m hm
      rcases List.mem_cons.mp hm with rfl | hm2
      · rfl
      · cases hm2

theorem mergesForPoly_rules (rows : List ElevRow) (p : Int) (L : List MergeRule)
    (h : mergesForPoly rows p = some L) : ∀ m ∈ L, m.rule = p := by
  unfold mergesForPoly at h
  cases h1 : alpineBlock rows p with
  | none => rw [h1] at h; exact absurd h (by simp)
  | some a =>
  cases h2 : parklandBlock rows p with
  | none => rw [h1, h2] at h; exact absurd h (by simp)
  | some b =>
  cases h3 : woodlandBlock rows p with
  | none => rw [h1, h2, h3] at h; exact absurd h (by simp)
  | some c =>
    rw [h1, h2, h3] at h
    injection h with h
    subst h
    intro m hm
    rcases List.mem_append.mp hm with hm2 | hm2
    · rcases List.mem_append.mp hm2 with hm3 | hm3
      · exact alpineBlock_rules rows p a h1 m hm3
      · exact parklandBlock_rules rows p b h2 m hm3
    · exact woodlandBlock_rules rows p c h3 m hm2

theorem highElevationMerges_rules (rows : List ElevRow) (polys : List Int) (L : List MergeRule)
    (h : highElevationMerges rows polys = some L) : ∀ m ∈ L, m.rule ∈ polys := by
  induction polys generalizing L with
  | nil =>
    unfold highElevationMerges at h
    injection h with h
    subst h
    intro m hm
    cases hm
  | cons q rest ih =>
    unfold highElevationMerges at h
    cases h1 : mergesForPoly rows q with
    | none => rw [h1] at h; exact absurd h (by simp)
    | some a =>
    cases h2 : highElevationMerges rows rest with
    | none => rw [h1, h2] at h; exact absurd h (by simp)
    | some b =>
      rw [h1, h2] at h
      injection h with h
      subst h
      intro m hm
      rcases List.mem_append.mp hm with hm2 | hm2
      · rw [mergesForPoly_rules rows q a h1 m hm2]
        exact List.mem_cons_self q rest
      · exact List.mem_cons_of_mem q (ih b h2 m hm2)

theorem mergesForPoly_all_present (rows : List ElevRow) (p : Int)
    (ha : alpineLabels rows p ≠ []) (hpk : parklandLabels rows p ≠ [])
    (hw : woodlandLabels rows p ≠ [])
    (hh : highLabels rows p ((woodlandLabels rows p).headI.take 6) ≠ []) :
    mergesForPoly rows p =
      some [⟨p, "alpine", lookupV rows (alpineLabels rows p).headI,
              lookupV rows (parklandLabels rows p).headI⟩,
            ⟨p, "parkland", lookupV rows (parklandLabels rows p).headI,
              lookupV rows (woodlandLabels rows p).headI⟩,
            ⟨p, "woodland", lookupV rows (woodlandLabels rows p).headI,
              lookupV rows
                (highLabels rows p ((woodlandLabels rows p).headI.take 6)).headI⟩] := by
  obtain ⟨a1, t1, hal⟩ := List.exists_cons_of_ne_nil ha
  obtain ⟨pk1, t2, hpl⟩ := List.exists_cons_of_ne_nil hpk
  obtain ⟨wd1, t3, hwl⟩ := List.exists_cons_of_ne_nil hw
  rw [hwl] at hh
  simp only [List.headI_cons] at hh
  obtain ⟨h1, t4, hhl⟩ := List.exists_cons_of_ne_nil hh
  simp [mergesForPoly, alpineBlock, parklandBlock, woodlandBlock, highList,
    hal, hpl, hwl, hhl]

theorem merge_filter_aux (rows : List ElevRow) (p : Int)
    (ha : alpineLabels rows p ≠ []) (hpk : parklandLabels rows p ≠ [])
    (hw : woodlandLabels rows p ≠ [])
    (hh : highLabels rows p ((woodlandLabels rows p).headI.take 6) ≠ []) :
    ∀ (polys : List Int) (L : List MergeRule), polys.Nodup → p ∈ polys →
      highElevationMerges rows polys = some L →
      L.filter (fun m => m.rule == p) =
        [⟨p, "alpine", lookupV rows (alpineLabels rows p).headI,
           lookupV rows (parklandLabels rows p).headI⟩,
         ⟨p, "parkland", lookupV rows (parklandLabels rows p).headI,
           lookupV rows (woodlandLabels rows p).headI⟩,
         ⟨p, "woodland", lookupV rows (woodlandLabels rows p).headI,
           lookupV rows (highLabels rows p ((woodlandLabels rows p).headI.take 6)).headI⟩] := by
  intro polys
  induction polys with
  | nil => intro L _ hp _; cases hp
  | cons q rest ih =>
    intro L hnd hp hL
    unfold highElevationMerges at hL
    cases h1 : mergesForPoly rows q with
    | none => rw [h1] at hL; exact absurd hL (by simp)
    | some a =>
    cases h2 : highElevationMerges rows rest with
    | none => rw [h1, h2] at hL; exact absurd hL (by simp)
    | some b =>
      rw [h1, h2] at hL
      injection hL with hL
      subst hL
      rw [List.filter_append]
      by_cases hqp : q = p
      · subst hqp
        have ha3 := mergesForPoly_all_present rows q ha hpk hw hh
        rw [ha3] at h1
        injection h1 with h1
        subst h1
        have hfb : b.filter (fun m => m.rule == q) = [] := by
          rw [List.filter_eq_nil_iff]
          intro m hm
          have hmem := highElevationMerges_rules rows rest b h2 m hm
          have hqnot : q ∉ rest := (List.nodup_cons.mp hnd).1
          simp only [beq_iff_eq]
          intro heq
          exact hqnot (heq ▸ hmem)
        rw [hfb]
        simp
      · have hprest : p ∈ rest := by
          rcases List.mem_cons.mp hp with h | h
          · exact absurd h.symm hqp
          · exact h
        have hfa : a.filter (fun m => m.rule == p) = [] := by
          rw [List.filter_eq_nil_iff]
          intro m hm
          have := mergesForPoly_rules rows q a h1 m hm
          simp only [beq_iff_eq]
          intro heq
          exact hqp (this ▸ heq)
        rw [hfa]
        rw [List.nil_append]
        exact ih b (List.nodup_cons.mp hnd).2 hprest h2

/-- C1 (amended): for a rule polygon with alpine, parkland and woodland
labels all present (and a high base label), `high_elevation_merges` emits
exactly three rules for that polygon, chained alpine to parkland, parkland
to woodland, woodland to the high base code (each link's target equalling
the next link's source by construction). For a rule polygon whose rows
contain only an alpine label, the computation does not emit a fallback rule:
it fails with an IndexError on the empty parkland list (see the
counterexample). -/
theorem C1_high_elevation_merge_chain (rows : List ElevRow) (polys : List Int) (p : Int)
    (L : List MergeRule) (hnd : polys.Nodup) (hp : p ∈ polys)
    (ha : alpineLabels rows p ≠ []) (hpk : parklandLabels rows p ≠ [])
    (hw : woodlandLabels rows p ≠ [])
    (hh : highLabels rows p ((woodlandLabels rows p).headI.take 6) ≠ [])
    (hL : highElevationMerges rows polys = some L) :
    L.filter (fun m => m.rule == p) =
      [⟨p, "alpine", lookupV rows (alpineLabels rows p).headI,
         lookupV rows (parklandLabels rows p).headI⟩,
       ⟨p, "parkland", lookupV rows (parklandLabels rows p).headI,
         lookupV rows (woodlandLabels rows p).headI⟩,
       ⟨p, "woodland", lookupV rows (woodlandLabels rows p).headI,
         lookupV rows (highLabels rows p ((woodlandLabels rows p).headI.take 6)).headI⟩] ∧
    (⟨p, "alpine", lookupV rows (alpineLabels rows p).headI,
       lookupV rows (parklandLabels rows p).headI⟩ : MergeRule).becvalue_target =
      (⟨p, "parkland", lookupV rows (parklandLabels rows p).headI,
         lookupV rows (woodlandLabels rows p).headI⟩ : MergeRule).becvalue ∧
    (⟨p, "parkland", lookupV rows (parklandLabels rows p).headI,
       lookupV rows (woodlandLabels rows p).headI⟩ : MergeRule).becvalue_target =
      (⟨p, "woodland", lookupV rows (woodlandLabels rows p).headI,
         lookupV rows (highLabels rows p ((woodlandLabels rows p).headI.take 6)).headI⟩ :
           MergeRule).becvalue :=
  ⟨merge_filter_aux rows p ha hpk hw hh polys L hnd hp hL, rfl, rfl⟩

/-- C1 counterexample: for a rule polygon whose elevation rows contain only
an alpine label (no parkland, no woodland), `high_elevation_merges` does not
produce a fallback rule to the polygon's base/high code: it raises an
IndexError on `parkland[0]` (modelled as `none`). -/
theorem C1_counterexample :
    alpineLabels [(⟨1, strChars ("AT      1"), 3, 0, 100, 0, 100, 0, 100⟩ : ElevRow)] 1 ≠ [] ∧
    parklandLabels [(⟨1, strChars ("AT      1"), 3, 0, 100, 0, 100, 0, 100⟩ : ElevRow)] 1 = [] ∧
    woodlandLabels [(⟨1, strChars ("AT      1"), 3, 0, 100, 0, 100, 0, 100⟩ : ElevRow)] 1 = [] ∧
    highElevationMerges [(⟨1, strChars ("AT      1"), 3, 0, 100, 0, 100, 0, 100⟩ : ElevRow)]
      [(1 : Int)] = none := by
  refine ⟨by decide, by decide, by decide, by decide⟩

theorem C1_high_elevation_merge_chain_witness :
    highElevationMerges
        [(⟨1, strChars ("AT      1"), 3, 0, 100, 0, 100, 0, 100⟩ : ElevRow),
         (⟨1, strChars ("ESSFmvp 1"), 7, 100, 500, 100, 500, 100, 500⟩ : ElevRow),
         (⟨1, strChars ("ESSFmvw 1"), 8, 500, 700, 500, 700, 500, 700⟩ : ElevRow),
         (⟨1, strChars ("ESSFmv  1"), 9, 700, 900, 700, 900, 700, 900⟩ : ElevRow)]
        [(1 : Int)] =
      some [(⟨1, "alpine", 3, 7⟩ : MergeRule), ⟨1, "parkland", 7, 8⟩, ⟨1, "woodland", 8, 9⟩] ∧
    ([(⟨1, "alpine", 3, 7⟩ : MergeRule), ⟨1, "parkland", 7, 8⟩,
        ⟨1, "woodland", 8, 9⟩].filter (fun m => m.rule == (1 : Int)) =
      [(⟨1, "alpine", 3, 7⟩ : MergeRule), ⟨1, "parkland", 7, 8⟩, ⟨1, "woodland", 8, 9⟩]) := by
  have hL : highElevationMerges
      [(⟨1, strChars ("AT      1"), 3, 0, 100, 0, 100, 0, 100⟩ : ElevRow),
       (⟨1, strChars ("ESSFmvp 1"), 7, 100, 500, 100, 500, 100, 500⟩ : ElevRow),
       (⟨1, strChars ("ESSFmvw 1"), 8, 500, 700, 500, 700, 500, 700⟩ : ElevRow),
       (⟨1, strChars ("ESSFmv  1"), 9, 700, 900, 700, 900, 700, 900⟩ : ElevRow)]
      [(1 : Int)] =
      some [(⟨1, "alpine", 3, 7⟩ : MergeRule), ⟨1, "parkland", 7, 8⟩, ⟨1, "woodland", 8, 9⟩] :=
    by decide
  have h := C1_high_elevation_merge_chain
    [(⟨1, strChars ("AT      1"), 3, 0, 100, 0, 100, 0, 100⟩ : ElevRow),
     (⟨1, strChars ("ESSFmvp 1"), 7, 100, 500, 100, 500, 100, 500⟩ : ElevRow),
     (⟨1, strChars ("ESSFmvw 1"), 8, 500, 700, 500, 700, 500, 700⟩ : ElevRow),
     (⟨1, strChars ("ESSFmv  1"), 9, 700, 900, 700, 900, 700, 900⟩ : ElevRow)]
    [(1 : Int)] 1
    [(⟨1, "alpine", 3, 7⟩ : MergeRule), ⟨1, "parkland", 7, 8⟩, ⟨1, "woodland", 8, 9⟩]
    (by decide) (by decide) (by decide) (by decide) (by decide) (by decide) hL
  exact ⟨hL, h.1.trans (by decide)⟩

/-! ### High elevation tier iteration order -/

/-- C3 (amended): the high elevation noise filter iterates exactly the high
elevation types present in the merge plan, excluding the always-last "high"
key, in whatever (unspecified) order Python set iteration produced them -
ascending tier order is not guaranteed; and it runs exactly when at least
one high elevation type is present. -/
theorem C3_tier_iteration (σ : List String) (L : List MergeRule) (hσ : IsSetOrder σ L) :
    postfilterIteratedTiers σ = σ ∧ (highElevRunsGuard σ = true ↔ L ≠ []) := by
  constructor
  · unfold postfilterIteratedTiers dissolveTypes
    simp
  · unfold highElevRunsGuard
    constructor
    · intro h hL0
      subst hL0
      have hlen : 1 ≤ σ.length := by simpa using h
      have hσne : σ ≠ [] := by
        intro h0
        rw [h0] at hlen
        simp at hlen
      obtain ⟨s, t, hst⟩ := List.exists_cons_of_ne_nil hσne
      obtain ⟨m, hm, _⟩ := hσ.2.1 s (by rw [hst]; exact List.mem_cons_self s t)
      cases hm
    · intro hL
      obtain ⟨m, t, hmt⟩ := List.exists_cons_of_ne_nil hL
      have hmem : m.mtype ∈ σ := hσ.2.2 m (by rw [hmt]; exact List.mem_cons_self m t)
      have : σ ≠ [] := fun h0 => by rw [h0] at hmem; cases hmem
      obtain ⟨s, t2, hst⟩ := List.exists_cons_of_ne_nil this
      rw [hst]
      simp

/-- C3 counterexample: the order of `high_elevation_types` comes from
`list(set(...))`, whose iteration order is unspecified (string hashing is
randomized per process); an admissible set order with parkland before alpine
makes the filter iterate the tiers out of ascending order. -/
theorem C3_counterexample :
    highElevationMerges
        [(⟨1, strChars ("AT      1"), 3, 0, 100, 0, 100, 0, 100⟩ : ElevRow),
         (⟨1, strChars ("ESSFmvp 1"), 7, 100, 500, 100, 500, 100, 500⟩ : ElevRow),
         (⟨1, strChars ("ESSFmvw 1"), 8, 500, 700, 500, 700, 500, 700⟩ : ElevRow),
         (⟨1, strChars ("ESSFmv  1"), 9, 700, 900, 700, 900, 700, 900⟩ : ElevRow)]
        [(1 : Int)] =
      some [(⟨1, "alpine", 3, 7⟩ : MergeRule), ⟨1, "parkland", 7, 8⟩, ⟨1, "woodland", 8, 9⟩] ∧
    IsSetOrder ["parkland", "alpine", "woodland"]
      [(⟨1, "alpine", 3, 7⟩ : MergeRule), ⟨1, "parkland", 7, 8⟩, ⟨1, "woodland", 8, 9⟩] ∧
    postfilterIteratedTiers ["parkland", "alpine", "woodland"] ≠
      ["alpine", "parkland", "woodland"] := by
  refine ⟨by decide, by decide, by decide⟩

theorem C3_tier_iteration_witness :
    IsSetOrder ["alpine", "parkland", "woodland"]
      [(⟨1, "alpine", 3, 7⟩ : MergeRule), ⟨1, "parkland", 7, 8⟩, ⟨1, "woodland", 8, 9⟩] ∧
    (postfilterIteratedTiers ["alpine", "parkland", "woodland"] =
        ["alpine", "parkland", "woodland"] ∧
      (highElevRunsGuard ["alpine", "parkland", "woodland"] = true ↔
        [(⟨1, "alpine", 3, 7⟩ : MergeRule), ⟨1, "parkland", 7, 8⟩,
          ⟨1, "woodland", 8, 9⟩] ≠ [])) :=
  ⟨by decide, C3_tier_iteration ["alpine", "parkland", "woodland"]
    [(⟨1, "alpine", 3, 7⟩ : MergeRule), ⟨1, "parkland", 7, 8⟩, ⟨1, "woodland", 8, 9⟩]
    (by decide)⟩

end Becmodel
